import Mathlib

/-!
Verification model of the fastapi-demo-project: the credential module
(`app/core/security.py`), the user store (`app/services/user_service.py`),
the item store (`app/services/item_service.py`), the request schemas
(`app/schemas/user.py`, `app/schemas/item.py`) and the item endpoints
(`app/api/v1/endpoints/items.py`), shallowly embedded in Lean.

Python dicts are modelled as insertion-ordered association lists, timestamps
as naturals, prices as rationals (every Python float is a dyadic rational),
and exceptions as explicit result values.
-/

namespace FastapiDemo

/-! ## Python dict model

A Python dict is insertion ordered with unique keys.  Lookup returns the
value at the first matching key; assignment overwrites in place or appends;
deletion of a missing key raises `KeyError`, modelled as `none`. -/

/-- `d.get(k)`: value at the first matching key, if any. -/
def dictGet {K V : Type} [DecidableEq K] (d : List (K × V)) (k : K) : Option V :=
  (d.find? (fun p => decide (p.1 = k))).map (fun p => p.2)

/-- `k in d`. -/
def dictHasKey {K V : Type} [DecidableEq K] (d : List (K × V)) (k : K) : Bool :=
  d.any (fun p => decide (p.1 = k))

/-- `d[k] = v`: overwrite in place when the key is present, else append. -/
def dictSet {K V : Type} [DecidableEq K] (d : List (K × V)) (k : K) (v : V) :
    List (K × V) :=
  if dictHasKey d k then d.map (fun p => if p.1 = k then (k, v) else p)
  else d ++ [(k, v)]

/-- `del d[k]`: `none` models the `KeyError` raised on a missing key. -/
def dictDel {K V : Type} [DecidableEq K] (d : List (K × V)) (k : K) :
    Option (List (K × V)) :=
  if dictHasKey d k then some (d.filter (fun p => !decide (p.1 = k)))
  else none

/-- `list(d.values())`. -/
def dictValues {K V : Type} (d : List (K × V)) : List V := d.map (fun p => p.2)

/-! ## Credential module (`app/core/security.py`)

The JWT codec (`python-jose`) and the bcrypt password context (`passlib`)
are external collaborators; they are modelled abstractly: a token is a
signed claims record or malformed data, decoding checks algorithm, key and
expiry exactly as the library does (raising, caught by `verify_token`), and
hashing is modelled as a deterministic injective tagging (per-hash salt
elided; `verify` succeeds exactly when the password reproduces the hash). -/

/-- The payload dict `{"exp": ..., "sub": ...}`; `sub` may be absent. -/
structure JWTClaims where
  sub : Option String
  exp : Nat
deriving DecidableEq, Repr

/-- A JWT: either a well-formed token signed with a key under an algorithm,
or bytes that do not decode at all. -/
inductive JWTToken where
  | signed (claims : JWTClaims) (key : String) (alg : String)
  | malformed (raw : String)
deriving DecidableEq, Repr

/-- The `jose.JWTError` failures raised by `jwt.decode`. -/
inductive JWTError where
  | decodeFailure
  | signatureInvalid
  | expiredSignature
deriving DecidableEq, Repr

/-- `jwt.encode(claims, key, algorithm=alg)`. -/
def jwtEncode (claims : JWTClaims) (key alg : String) : JWTToken :=
  .signed claims key alg

/-- `jwt.decode(token, key, algorithms=algs)` at time `now` (seconds):
rejects malformed data, an unexpected algorithm, a wrong key, and an
expired token (`exp < now`, zero leeway). -/
def jwtDecode (t : JWTToken) (key : String) (algs : List String) (now : Nat) :
    Except JWTError JWTClaims :=
  match t with
  | .malformed _ => .error .decodeFailure
  | .signed c k a =>
    if ¬ (a ∈ algs) then .error .signatureInvalid
    else if k ≠ key then .error .signatureInvalid
    else if c.exp < now then .error .expiredSignature
    else .ok c

/-- `settings.secret_key` (environment-supplied; the default value is
rejected by the config validator). -/
def settingsSecretKey : String := "test-secret-key"

/-- `settings.algorithm`. -/
def settingsAlgorithm : String := "HS256"

/-- `settings.access_token_expire_minutes`. -/
def settingsAccessTokenExpireMinutes : Nat := 30

/-- `create_access_token(subject, expires_delta)` issued at time `now`
(seconds).  The subject is stringified; expiry is absolute. -/
def create_access_token (subject : Nat) (expires_delta : Option Nat)
    (now : Nat) : JWTToken :=
  let expire : Nat :=
    match expires_delta with
    | some d => now + d
    | none => now + settingsAccessTokenExpireMinutes * 60
  jwtEncode { sub := some (toString subject), exp := expire }
    settingsSecretKey settingsAlgorithm

/-- `verify_token(token)` evaluated at time `now`: the `try/except JWTError`
is the match on the decode result — every failure becomes `none`, no
exception reaches the caller. -/
def verify_token (t : JWTToken) (now : Nat) : Option String :=
  match jwtDecode t settingsSecretKey [settingsAlgorithm] now with
  | .error _ => none
  | .ok payload =>
    match payload.sub with
    | none => none
    | some user_id => some user_id

/-- `get_password_hash(password)` (passlib bcrypt, salt elided so that the
model is deterministic). -/
def get_password_hash (password : String) : String :=
  "$2b$12$" ++ password

/-- `verify_password(plain, hashed)`: true exactly when the password
reproduces the hash. -/
def verify_password (plain_password hashed_password : String) : Bool :=
  hashed_password = get_password_hash plain_password

/-! ## User model and store (`app/models/user.py`, `app/services/user_service.py`)

Pydantic does not validate on assignment, so `setattr` during a partial
update can place the literal `None` carried by an explicitly-null patch
field into any patchable record field; those fields are therefore `Option`-
typed here, with creation always storing actual values. -/

/-- `UserInDB`.  `hashed_password` is never patched and stays a `String`. -/
structure UserInDB where
  id : Nat
  email : Option String
  username : Option String
  full_name : Option String
  hashed_password : String
  is_active : Option Bool
  is_superuser : Option Bool
  created_at : Nat
  updated_at : Nat
deriving DecidableEq, Repr

/-- `UserCreate` after schema validation (the username validator has
already lower-cased the username, see `validate_username`). -/
structure UserCreate where
  email : String
  username : String
  full_name : Option String
  password : String
  is_active : Bool
  is_superuser : Bool
deriving DecidableEq, Repr

/-- `UserUpdate`: each field distinguishes *unset* (outer `none`) from
*explicitly set* (outer `some`), and an explicitly set field may carry the
JSON value `null` (inner `none`) — pydantic `exclude_unset` keeps such a
field while Python truthiness tests treat it like an absent one. -/
structure UserUpdate where
  email : Option (Option String) := none
  username : Option (Option String) := none
  full_name : Option (Option String) := none
  is_active : Option (Option Bool) := none
  is_superuser : Option (Option Bool) := none
deriving DecidableEq, Repr

/-- The value of the attribute access `user_update.email` (unset and
set-to-null are indistinguishable there). -/
def UserUpdate.emailVal (pu : UserUpdate) : Option String := pu.email.bind id

/-- The value of the attribute access `user_update.username`. -/
def UserUpdate.usernameVal (pu : UserUpdate) : Option String :=
  pu.username.bind id

/-- `user_update.dict(exclude_unset=True)` is nonempty. -/
def UserUpdate.anySet (pu : UserUpdate) : Bool :=
  pu.email.isSome || pu.username.isSome || pu.full_name.isSome ||
    pu.is_active.isSome || pu.is_superuser.isSome

/-- The `setattr` loop over `update_data.items()`: a set field (even one
set to `None`) overwrites the record field, an unset field is untouched. -/
def applyUserPatch (u : UserInDB) (pu : UserUpdate) : UserInDB :=
  { u with
    email := pu.email.getD u.email
    username := pu.username.getD u.username
    full_name := pu.full_name.getD u.full_name
    is_active := pu.is_active.getD u.is_active
    is_superuser := pu.is_superuser.getD u.is_superuser }

/-- Python truthiness of an optional string (`None` and `""` are falsy). -/
def strOptTruthy : Option String → Bool
  | some s => s ≠ ""
  | none => false

/-- Python truthiness of an optional bool (`None` and `False` are falsy). -/
def boolOptTruthy : Option Bool → Bool
  | some b => b
  | none => false

/-- The in-memory state of `UserService`. -/
structure UserStore where
  users : List (Nat × UserInDB)
  user_by_email : List (String × Nat)
  user_by_username : List (String × Nat)
  next_id : Nat
deriving DecidableEq, Repr

/-- Result of a service call: a normal return value, an `HTTPException`,
or an uncaught `KeyError` escaping a `del` on a missing key. -/
inductive PyResult (α : Type) where
  | ok (val : α)
  | httpError (statusCode : Nat) (detail : String)
  | keyError
deriving DecidableEq, Repr

/-- `UserService.create_user(user_create)` at time `now`.  The returned
store is unchanged on failure. -/
def create_user (s : UserStore) (uc : UserCreate) (now : Nat) :
    PyResult UserInDB × UserStore :=
  if dictHasKey s.user_by_email uc.email then
    (.httpError 400 "Email already registered", s)
  else if dictHasKey s.user_by_username uc.username then
    (.httpError 400 "Username already taken", s)
  else
    let user_id := s.next_id
    let hashed_password := get_password_hash uc.password
    let user : UserInDB :=
      { id := user_id
        email := some uc.email
        username := some uc.username
        full_name := uc.full_name
        hashed_password := hashed_password
        is_active := some uc.is_active
        is_superuser := some uc.is_superuser
        created_at := now
        updated_at := now }
    (.ok user,
      { users := dictSet s.users user_id user
        user_by_email := dictSet s.user_by_email uc.email user_id
        user_by_username := dictSet s.user_by_username uc.username user_id
        next_id := s.next_id + 1 })

/-- `UserService.get_user_by_id(user_id)`. -/
def get_user_by_id (s : UserStore) (user_id : Nat) : Option UserInDB :=
  dictGet s.users user_id

/-- `UserService.get_user_by_username(username)`: note the truthiness test
`if user_id:` — an id of `0` would fall through to `None`. -/
def get_user_by_username (s : UserStore) (username : String) :
    Option UserInDB :=
  match dictGet s.user_by_username username with
  | some user_id => if user_id = 0 then none else dictGet s.users user_id
  | none => none

/-- `UserService.authenticate_user(username, password)`. -/
def authenticate_user (s : UserStore) (username password : String) :
    Option UserInDB :=
  match get_user_by_username s username with
  | none => none
  | some user =>
    if ¬ verify_password password user.hashed_password then none
    else if ¬ boolOptTruthy user.is_active then none
    else some user

/-- Continuation of `update_user`: the `if update_data:` mutation block. -/
def update_user_apply (s : UserStore) (user_id : Nat) (user : UserInDB)
    (pu : UserUpdate) (now : Nat) : PyResult (Option UserInDB) × UserStore :=
  if pu.anySet then
    let emailStep : Option (List (String × Nat)) :=
      if strOptTruthy pu.emailVal ∧ pu.emailVal ≠ user.email then
        match user.email with
        | some old_email =>
          (dictDel s.user_by_email old_email).map
            (fun d => dictSet d (pu.emailVal.getD "") user_id)
        | none => none
      else some s.user_by_email
    match emailStep with
    | none => (.keyError, s)
    | some by_email =>
      let usernameStep : Option (List (String × Nat)) :=
        if strOptTruthy pu.usernameVal ∧ pu.usernameVal ≠ user.username then
          match user.username with
          | some old_username =>
            (dictDel s.user_by_username old_username).map
              (fun d => dictSet d (pu.usernameVal.getD "") user_id)
          | none => none
        else some s.user_by_username
      match usernameStep with
      | none => (.keyError, { s with user_by_email := by_email })
      | some by_username =>
        let user' := { applyUserPatch user pu with updated_at := now }
        (.ok (some user'),
          { s with
            users := dictSet s.users user_id user'
            user_by_email := by_email
            user_by_username := by_username })
  else (.ok (some user), s)

/-- Continuation of `update_user`: the username conflict check. -/
def update_user_checkUsername (s : UserStore) (user_id : Nat)
    (user : UserInDB) (pu : UserUpdate) (now : Nat) :
    PyResult (Option UserInDB) × UserStore :=
  if strOptTruthy pu.usernameVal ∧ pu.usernameVal ≠ user.username then
    if dictHasKey s.user_by_username (pu.usernameVal.getD "") then
      (.httpError 400 "Username already taken", s)
    else update_user_apply s user_id user pu now
  else update_user_apply s user_id user pu now

/-- `UserService.update_user(user_id, user_update)` at time `now`.
`ok none` is the Python `return None` (user absent); the conflict checks
run before any mutation; the secondary-index moves run before the
`setattr` loop, and a `del` on a missing key aborts with `KeyError`
leaving the mutations made so far in place. -/
def update_user (s : UserStore) (user_id : Nat) (pu : UserUpdate)
    (now : Nat) : PyResult (Option UserInDB) × UserStore :=
  match dictGet s.users user_id with
  | none => (.ok none, s)
  | some user =>
    if strOptTruthy pu.emailVal ∧ pu.emailVal ≠ user.email then
      if dictHasKey s.user_by_email (pu.emailVal.getD "") then
        (.httpError 400 "Email already registered", s)
      else update_user_checkUsername s user_id user pu now
    else update_user_checkUsername s user_id user pu now

/-- `UserService.delete_user(user_id)`: `ok false` when absent; removal
from the primary store happens first, then the two index deletions, each
of which can raise `KeyError` from a corrupted state. -/
def delete_user (s : UserStore) (user_id : Nat) :
    PyResult Bool × UserStore :=
  match dictGet s.users user_id with
  | none => (.ok false, s)
  | some user =>
    match dictDel s.users user_id with
    | none => (.keyError, s)
    | some users' =>
      match (match user.email with
             | some e => dictDel s.user_by_email e
             | none => none) with
      | none => (.keyError, { s with users := users' })
      | some by_email =>
        match (match user.username with
               | some un => dictDel s.user_by_username un
               | none => none) with
        | none => (.keyError, { s with users := users', user_by_email := by_email })
        | some by_username =>
          (.ok true,
            { s with
              users := users'
              user_by_email := by_email
              user_by_username := by_username })

/-! ## User schema validators (`app/schemas/user.py`)

String semantics are modelled over ASCII (the repository's usernames are
alphanumeric ASCII): `str.lower` maps `A..Z` down, `str.isalnum` checks
letters and digits. -/

/-- ASCII model of `str.lower` on a character. -/
def pyCharLower (c : Char) : Char :=
  if 'A' ≤ c ∧ c ≤ 'Z' then Char.ofNat (c.toNat + 32) else c

/-- ASCII model of `str.lower`. -/
def pyLower (s : String) : String := ⟨s.data.map pyCharLower⟩

/-- The string contains at least one (ASCII) uppercase letter. -/
def hasUpperChar (s : String) : Bool :=
  s.data.any (fun c => decide ('A' ≤ c ∧ c ≤ 'Z'))

/-- ASCII model of `str.isalnum` (empty strings are not alphanumeric). -/
def pyIsAlnum (s : String) : Bool :=
  s ≠ "" && s.data.all (fun c => c.isAlpha || c.isDigit)

/-- `UserCreate.validate_username`: length and alphanumeric checks, then
lower-casing.  (`UserUpdate.validate_username` applies the same transform
to non-null values.) -/
def validate_username (v : String) : Except String String :=
  if v.length < 3 then .error "Username must be at least 3 characters long"
  else if ¬ pyIsAlnum v then
    .error "Username must contain only alphanumeric characters"
  else .ok (pyLower v)

/-! ## Item model and store (`app/models/item.py`,
`app/services/item_service.py`)

Item patch fields explicitly set to JSON `null` are passed through by the
`ItemUpdate` validators and would be applied by `setattr` like the user
case; none of the properties below depend on them, so an item patch field
here is either absent or carries a value. -/

/-- `ItemStatus`. -/
inductive ItemStatus where
  | active
  | inactive
  | archived
deriving DecidableEq, Repr

/-- `Item`.  Prices are rationals: every Python float is exactly a dyadic
rational. -/
structure Item where
  id : Nat
  title : String
  description : Option String
  price : ℚ
  status : ItemStatus
  owner_id : Nat
  created_at : Nat
  updated_at : Nat
deriving DecidableEq, Repr

/-- `ItemCreate` after schema validation. -/
structure ItemCreate where
  title : String
  description : Option String
  price : ℚ
  status : ItemStatus
deriving DecidableEq, Repr

/-- `ItemUpdate` after schema validation (`none` = field unset). -/
structure ItemUpdate where
  title : Option String := none
  description : Option String := none
  price : Option ℚ := none
  status : Option ItemStatus := none
deriving DecidableEq, Repr

/-- `item_update.dict(exclude_unset=True)` is nonempty. -/
def ItemUpdate.anySet (p : ItemUpdate) : Bool :=
  p.title.isSome || p.description.isSome || p.price.isSome || p.status.isSome

/-- The `setattr` loop applying an item patch. -/
def applyItemPatch (it : Item) (p : ItemUpdate) : Item :=
  { it with
    title := p.title.getD it.title
    description := (p.description.map some).getD it.description
    price := p.price.getD it.price
    status := p.status.getD it.status }

/-- The in-memory state of `ItemService`. -/
structure ItemStore where
  items : List (Nat × Item)
  next_id : Nat
deriving DecidableEq, Repr

/-- `ItemService._create_item_internal` / `create_item`. -/
def create_item (s : ItemStore) (ic : ItemCreate) (owner_id : Nat)
    (now : Nat) : Item × ItemStore :=
  let item_id := s.next_id
  let item : Item :=
    { id := item_id
      title := ic.title
      description := ic.description
      price := ic.price
      status := ic.status
      owner_id := owner_id
      created_at := now
      updated_at := now }
  (item, { items := dictSet s.items item_id item, next_id := s.next_id + 1 })

/-- `ItemService.get_item_by_id(item_id)`. -/
def get_item_by_id (s : ItemStore) (item_id : Nat) : Option Item :=
  dictGet s.items item_id

/-- The filter pipeline shared verbatim by `get_items` and
`get_item_count`: `if status:` (an enum member is always truthy) and
`if owner_id:` (the integer `0` is falsy, so an owner filter of `0` is
silently ignored). -/
def applyItemFilters (items : List Item) (status : Option ItemStatus)
    (owner_id : Option Nat) : List Item :=
  let items :=
    match status with
    | some st => items.filter (fun i => decide (i.status = st))
    | none => items
  match owner_id with
  | some oid =>
    if oid = 0 then items else items.filter (fun i => decide (i.owner_id = oid))
  | none => items

/-- Comparator for Python's stable descending sort on `created_at`: the
items are tagged with their position in the pre-sort list, and the stable
result is the unique ordering by creation time descending with ties in
position order. -/
def itemSortLe (p q : Nat × Item) : Bool :=
  decide (q.2.created_at < p.2.created_at) ||
    (decide (p.2.created_at = q.2.created_at) && decide (p.1 ≤ q.1))

/-- Insert into a list already ordered by `itemSortLe`. -/
def insertItemDesc (x : Nat × Item) : List (Nat × Item) → List (Nat × Item)
  | [] => [x]
  | y :: r => if itemSortLe x y then x :: y :: r else y :: insertItemDesc x r

/-- Insertion sort by `itemSortLe`. -/
def sortItemsEnum : List (Nat × Item) → List (Nat × Item)
  | [] => []
  | x :: r => insertItemDesc x (sortItemsEnum r)

/-- `items.sort(key=lambda x: x.created_at, reverse=True)`: Python's sort
is stable, so the result is the position-tagged sort with the tags erased. -/
def pySortByCreatedDesc (items : List Item) : List Item :=
  (sortItemsEnum items.enum).map (fun p => p.2)

/-- `ItemService.get_items(skip, limit, status, owner_id)`. -/
def get_items (s : ItemStore) (skip limit : Nat) (status : Option ItemStatus)
    (owner_id : Option Nat) : List Item :=
  let items := dictValues s.items
  let items := applyItemFilters items status owner_id
  ((pySortByCreatedDesc items).drop skip).take limit

/-- `ItemService.get_item_count(status, owner_id)`. -/
def get_item_count (s : ItemStore) (status : Option ItemStatus)
    (owner_id : Option Nat) : Nat :=
  (applyItemFilters (dictValues s.items) status owner_id).length

/-- `ItemService.update_item(item_id, item_update, user_id)` at `now`. -/
def update_item (s : ItemStore) (item_id : Nat) (p : ItemUpdate)
    (user_id : Nat) (now : Nat) : PyResult (Option Item) × ItemStore :=
  match dictGet s.items item_id with
  | none => (.ok none, s)
  | some item =>
    if item.owner_id ≠ user_id then
      (.httpError 403 "Not enough permissions to update this item", s)
    else if p.anySet then
      let item' := { applyItemPatch item p with updated_at := now }
      (.ok (some item'), { s with items := dictSet s.items item_id item' })
    else (.ok (some item), s)

/-- `ItemService.delete_item(item_id, user_id)`. -/
def delete_item (s : ItemStore) (item_id : Nat) (user_id : Nat) :
    PyResult Bool × ItemStore :=
  match dictGet s.items item_id with
  | none => (.ok false, s)
  | some item =>
    if item.owner_id ≠ user_id then
      (.httpError 403 "Not enough permissions to delete this item", s)
    else
      match dictDel s.items item_id with
      | none => (.keyError, s)
      | some items' => (.ok true, { s with items := items' })

/-! ## Item endpoints (`app/api/v1/endpoints/items.py`) -/

/-- An HTTP reply from an item endpoint. -/
inductive ItemHttpReply where
  | success (statusCode : Nat) (item : Item)
  | failure (statusCode : Nat) (detail : String)
deriving DecidableEq, Repr

/-- The status code of a reply. -/
def ItemHttpReply.code : ItemHttpReply → Nat
  | .success c _ => c
  | .failure c _ => c

/-- `PATCH /items/{item_id}/status` for an authenticated `current_user`:
builds `ItemUpdate(status=status)`, calls the service, and lets the
service's `HTTPException` pass through.  In the not-found branch the
handler's `status` parameter (an `ItemStatus`) shadows the imported
`fastapi.status` module, so `status.HTTP_404_NOT_FOUND` raises
`AttributeError`, which the global exception handler in `main.py` turns
into a 500 "Internal server error" reply — this endpoint can never
actually reply 404. -/
def update_item_status (s : ItemStore) (item_id : Nat) (status : ItemStatus)
    (current_user : UserInDB) (now : Nat) : ItemHttpReply × ItemStore :=
  let item_update : ItemUpdate := { status := some status }
  match update_item s item_id item_update current_user.id now with
  | (.ok none, s') => (.failure 500 "Internal server error", s')
  | (.ok (some item), s') => (.success 200 item, s')
  | (.httpError c detail, s') => (.failure c detail, s')
  | (.keyError, s') => (.failure 500 "Internal server error", s')

/-- `PUT /items/{item_id}` for an authenticated `current_user`. -/
def put_item_endpoint (s : ItemStore) (item_id : Nat) (p : ItemUpdate)
    (current_user : UserInDB) (now : Nat) : ItemHttpReply × ItemStore :=
  match update_item s item_id p current_user.id now with
  | (.ok none, s') => (.failure 404 "Item not found", s')
  | (.ok (some item), s') => (.success 200 item, s')
  | (.httpError c detail, s') => (.failure c detail, s')
  | (.keyError, s') => (.failure 500 "Internal server error", s')

/-- `DELETE /items/{item_id}` for an authenticated `current_user`
(204 carries no item, modelled with the deleted item id irrelevant). -/
def delete_item_endpoint (s : ItemStore) (item_id : Nat)
    (current_user : UserInDB) : (Nat × String) × ItemStore :=
  match delete_item s item_id current_user.id with
  | (.ok false, s') => ((404, "Item not found"), s')
  | (.ok true, s') => ((204, ""), s')
  | (.httpError c detail, s') => ((c, detail), s')
  | (.keyError, s') => ((500, "Internal server error"), s')

/-! ## Item price validator (`app/schemas/item.py`)

Python floats are dyadic rationals; CPython's `round(x, 2)` produces the
2-decimal value nearest to the exact binary value of `x`, ties going to an
even hundredths digit, and then returns the double nearest that decimal.
The rounding step is modelled exactly on `ℚ`; the final re-quantization to
a double is the identity at every value considered here. -/

/-- Round to the nearest integer, ties to even. -/
def roundHalfEven (q : ℚ) : ℤ :=
  if q - ⌊q⌋ < 1/2 then ⌊q⌋
  else if (1:ℚ)/2 < q - ⌊q⌋ then ⌊q⌋ + 1
  else if 2 ∣ ⌊q⌋ then ⌊q⌋ else ⌊q⌋ + 1

/-- `round(v, 2)`. -/
def pyRound2 (v : ℚ) : ℚ := (roundHalfEven (v * 100) : ℚ) / 100

/-- `ItemBase.price_must_be_positive`: reject non-positive input, then
round the accepted value — note the order. -/
def price_must_be_positive (v : ℚ) : Except String ℚ :=
  if v ≤ 0 then .error "Price must be greater than 0"
  else .ok (pyRound2 v)

/-! ## Pagination (`app/api/v1/endpoints/items.py`) -/

/-- `math.ceil(total / size)` with Python true division, modelled exactly
over `ℚ`. -/
def pyCeilDiv (total size : Nat) : Nat := (⌈(total : ℚ) / (size : ℚ)⌉).toNat

/-- `pages = math.ceil(total / size) if total > 0 else 1`, as computed by
`get_items` and `get_my_items`. -/
def pagesFor (total size : Nat) : Nat :=
  if 0 < total then pyCeilDiv total size else 1

/-! ## Dict lemmas -/

theorem dictGet_cons {K V : Type} [DecidableEq K] (q : K × V)
    (d : List (K × V)) (k : K) :
    dictGet (q :: d) k = if q.1 = k then some q.2 else dictGet d k := by
  unfold dictGet
  by_cases h : q.1 = k <;> simp [List.find?, h]

theorem dictHasKey_cons {K V : Type} [DecidableEq K] (q : K × V)
    (d : List (K × V)) (k : K) :
    dictHasKey (q :: d) k = (decide (q.1 = k) || dictHasKey d k) := by
  unfold dictHasKey
  simp [List.any_cons]

theorem dictGet_eq_some_mem {K V : Type} [DecidableEq K] {d : List (K × V)}
    {k : K} {v : V} (h : dictGet d k = some v) : (k, v) ∈ d := by
  induction d with
  | nil => simp [dictGet, List.find?] at h
  | cons q d ih =>
    rw [dictGet_cons] at h
    by_cases hq : q.1 = k
    · rw [if_pos hq] at h
      have hqv : q = (k, v) := by
        cases q
        simp only [Option.some_inj] at h
        simp_all
      rw [hqv]
      exact List.mem_cons_self _ _
    · rw [if_neg hq] at h
      exact List.mem_cons_of_mem _ (ih h)

theorem dictGet_eq_none_of_all_ne {K V : Type} [DecidableEq K]
    {d : List (K × V)} {k : K} (h : ∀ p ∈ d, p.1 ≠ k) : dictGet d k = none := by
  induction d with
  | nil => rfl
  | cons q d ih =>
    rw [dictGet_cons, if_neg (h q (List.mem_cons_self q d))]
    exact ih (fun p hp => h p (List.mem_cons_of_mem q hp))

theorem dictHasKey_of_get_eq_some {K V : Type} [DecidableEq K]
    {d : List (K × V)} {k : K} {v : V} (h : dictGet d k = some v) :
    dictHasKey d k = true := by
  have := dictGet_eq_some_mem h
  unfold dictHasKey
  exact List.any_eq_true.mpr ⟨(k, v), this, by simp⟩

theorem all_ne_of_hasKey_eq_false {K V : Type} [DecidableEq K]
    {d : List (K × V)} {k : K} (h : dictHasKey d k = false) :
    ∀ p ∈ d, p.1 ≠ k := by
  intro p hp hk
  unfold dictHasKey at h
  have := List.any_eq_false.mp h p hp
  simp [hk] at this

theorem dictGet_eq_none_of_hasKey_eq_false {K V : Type} [DecidableEq K]
    {d : List (K × V)} {k : K} (h : dictHasKey d k = false) :
    dictGet d k = none :=
  dictGet_eq_none_of_all_ne (all_ne_of_hasKey_eq_false h)

theorem dictGet_set_self {K V : Type} [DecidableEq K] (d : List (K × V))
    (k : K) (v : V) : dictGet (dictSet d k v) k = some v := by
  unfold dictSet
  by_cases h : dictHasKey d k = true
  · rw [if_pos h]
    induction d with
    | nil => simp [dictHasKey] at h
    | cons q d ih =>
      by_cases hq : q.1 = k
      · simp [dictGet_cons, hq]
      · rw [dictHasKey_cons] at h
        simp only [hq, decide_False, Bool.false_or] at h
        simpa [dictGet_cons, hq] using ih h
  · rw [if_neg h]
    simp only [Bool.not_eq_true] at h
    induction d with
    | nil => simp [dictGet_cons]
    | cons q d ih =>
      rw [dictHasKey_cons] at h
      rcases Bool.or_eq_false_iff.mp h with ⟨h1, h2⟩
      have hq : ¬ (q.1 = k) := by simpa using h1
      rw [List.cons_append, dictGet_cons, if_neg hq]
      exact ih h2

theorem dictGet_set_ne {K V : Type} [DecidableEq K] (d : List (K × V))
    (k k' : K) (v : V) (h : k' ≠ k) :
    dictGet (dictSet d k v) k' = dictGet d k' := by
  unfold dictSet
  by_cases hk : dictHasKey d k = true
  · rw [if_pos hk]
    clear hk
    induction d with
    | nil => rfl
    | cons q d ih =>
      rw [List.map_cons, dictGet_cons, dictGet_cons]
      by_cases hq : q.1 = k
      · rw [if_pos hq]
        have hne1 : ¬ (((k, v) : K × V).1 = k') := fun hc => h hc.symm
        have hne2 : ¬ (q.1 = k') := fun hc => h (hc.symm.trans hq)
        rw [if_neg hne1, if_neg hne2]
        exact ih
      · rw [if_neg hq]
        by_cases hq' : q.1 = k'
        · rw [if_pos hq', if_pos hq']
        · rw [if_neg hq', if_neg hq']
          exact ih
  · rw [if_neg hk]
    clear hk
    induction d with
    | nil =>
      have hkk' : ¬ (k = k') := fun hc => h hc.symm
      simp [dictGet_cons, hkk']
    | cons q d ih =>
      rw [List.cons_append, dictGet_cons, dictGet_cons]
      by_cases hq' : q.1 = k'
      · rw [if_pos hq', if_pos hq']
      · rw [if_neg hq', if_neg hq']
        exact ih

theorem mem_dictSet {K V : Type} [DecidableEq K] {d : List (K × V)}
    {k : K} {v : V} {p : K × V} (h : p ∈ dictSet d k v) :
    p = (k, v) ∨ (p ∈ d ∧ p.1 ≠ k) := by
  unfold dictSet at h
  by_cases hk : dictHasKey d k = true
  · rw [if_pos hk] at h
    rcases List.mem_map.mp h with ⟨q, hq, hqp⟩
    by_cases hqk : q.1 = k
    · left
      rw [← hqp]
      simp [hqk]
    · right
      rw [if_neg hqk] at hqp
      rw [← hqp]
      exact ⟨hq, hqk⟩
  · rw [if_neg hk] at h
    simp only [Bool.not_eq_true] at hk
    rcases List.mem_append.mp h with h1 | h1
    · exact Or.inr ⟨h1, all_ne_of_hasKey_eq_false hk p h1⟩
    · left
      simpa using h1

theorem dictDel_eq_filter {K V : Type} [DecidableEq K] {d : List (K × V)}
    {k : K} {d' : List (K × V)} (h : dictDel d k = some d') :
    d' = d.filter (fun p => !decide (p.1 = k)) := by
  unfold dictDel at h
  by_cases hk : dictHasKey d k = true
  · rw [if_pos hk] at h
    exact (Option.some_inj.mp h).symm
  · rw [if_neg hk] at h
    exact absurd h (by simp)

theorem dictDel_isSome_of_hasKey {K V : Type} [DecidableEq K]
    {d : List (K × V)} {k : K} (h : dictHasKey d k = true) :
    dictDel d k = some (d.filter (fun p => !decide (p.1 = k))) := by
  unfold dictDel
  rw [if_pos h]

theorem mem_of_mem_dictDel {K V : Type} [DecidableEq K] {d : List (K × V)}
    {k : K} {d' : List (K × V)} (h : dictDel d k = some d') {p : K × V}
    (hp : p ∈ d') : p ∈ d ∧ p.1 ≠ k := by
  rw [dictDel_eq_filter h] at hp
  have := List.mem_filter.mp hp
  refine ⟨this.1, ?_⟩
  simpa using this.2

theorem dictGet_dictDel_self {K V : Type} [DecidableEq K] {d : List (K × V)}
    {k : K} {d' : List (K × V)} (h : dictDel d k = some d') :
    dictGet d' k = none := by
  apply dictGet_eq_none_of_all_ne
  intro p hp
  exact (mem_of_mem_dictDel h hp).2

theorem dictGet_dictDel_ne {K V : Type} [DecidableEq K] {d : List (K × V)}
    {k : K} {d' : List (K × V)} (h : dictDel d k = some d') (k' : K)
    (hne : k' ≠ k) : dictGet d' k' = dictGet d k' := by
  rw [dictDel_eq_filter h]
  clear h
  induction d with
  | nil => rfl
  | cons q d ih =>
    by_cases hq : q.1 = k
    · have hq' : ¬ (q.1 = k') := fun hc => hne (hc.symm.trans hq)
      simp [dictGet_cons, List.filter_cons, hq, hq', ih, Ne.symm hne]
    · by_cases hq' : q.1 = k'
      · simp [dictGet_cons, List.filter_cons, hq, hq', hne]
      · simp [dictGet_cons, List.filter_cons, hq, hq', ih]

/-! ## Concrete fixtures used by witnesses and counterexamples -/

/-- A concrete user record. -/
def aliceUser : UserInDB :=
  { id := 1
    email := some "a@example.com"
    username := some "alice"
    full_name := none
    hashed_password := get_password_hash "Secret123"
    is_active := some true
    is_superuser := some false
    created_at := 0
    updated_at := 0 }

/-- A concrete one-user store in the state created by registration. -/
def aliceStore : UserStore :=
  { users := [(1, aliceUser)]
    user_by_email := [("a@example.com", 1)]
    user_by_username := [("alice", 1)]
    next_id := 2 }

/-! ## Claim theorems -/

/-- `boolOptTruthy` is truth of the stored flag. -/
theorem boolOptTruthy_eq_true {b : Option Bool} :
    boolOptTruthy b = true ↔ b = some true := by
  cases b with
  | none => simp [boolOptTruthy]
  | some x => cases x <;> simp [boolOptTruthy]

/-- C1: `authenticate_user(username, password)` returns a user exactly when
the username lookup finds that user, the password verifies against the
stored hash, and the `is_active` flag is true; in every other case the
result is the bare `none`, carrying no indication of which condition
failed. -/
theorem authenticate_user_iff_valid (s : UserStore)
    (username password : String) (u : UserInDB) :
    authenticate_user s username password = some u ↔
      (get_user_by_username s username = some u ∧
       verify_password password u.hashed_password = true ∧
       u.is_active = some true) := by
  unfold authenticate_user
  cases h : get_user_by_username s username with
  | none => simp
  | some user =>
    dsimp only
    by_cases hv : verify_password password user.hashed_password = true
    · by_cases ha : boolOptTruthy user.is_active = true
      · rw [if_neg (not_not_intro hv), if_neg (not_not_intro ha)]
        constructor
        · intro he
          cases Option.some_inj.mp he
          exact ⟨rfl, hv, boolOptTruthy_eq_true.mp ha⟩
        · intro ⟨he, _, _⟩
          exact he
      · rw [if_neg (not_not_intro hv), if_pos ha]
        constructor
        · intro he
          simp at he
        · intro ⟨he, _, hact⟩
          cases Option.some_inj.mp he
          exact absurd (boolOptTruthy_eq_true.mpr hact) ha
    · rw [if_pos hv]
      constructor
      · intro he
        simp at he
      · intro ⟨he, hverify, _⟩
        cases Option.some_inj.mp he
        exact absurd hverify hv

/-- C2: a token issued by `create_access_token(subject, ttl)` verifies to
the stringified subject as long as the current time is within the ttl, and
verifies to `none` once the ttl has elapsed; any token signed with a wrong
key or an unexpected algorithm, and any undecodable token, verifies to
`none` (the decode failure is caught — `verify_token` is a total function
into `Option`, no exception reaches its caller). -/
theorem token_roundtrip (subject ttl issuedAt checkedAt : Nat) :
    (checkedAt ≤ issuedAt + ttl →
      verify_token (create_access_token subject (some ttl) issuedAt)
        checkedAt = some (toString subject)) ∧
    (issuedAt + ttl < checkedAt →
      verify_token (create_access_token subject (some ttl) issuedAt)
        checkedAt = none) ∧
    (∀ c k a now, k ≠ settingsSecretKey →
      verify_token (.signed c k a) now = none) ∧
    (∀ c k a now, a ≠ settingsAlgorithm →
      verify_token (.signed c k a) now = none) ∧
    (∀ raw now, verify_token (.malformed raw) now = none) := by
  refine ⟨?_, ?_, ?_, ?_, ?_⟩
  · intro h
    have hnl : ¬ (issuedAt + ttl < checkedAt) := Nat.not_lt.mpr h
    simp [verify_token, create_access_token, jwtEncode, jwtDecode, hnl]
  · intro h
    simp [verify_token, create_access_token, jwtEncode, jwtDecode, h]
  · intro c k a now hk
    by_cases ha : a = settingsAlgorithm <;>
      simp [verify_token, jwtDecode, ha, hk]
  · intro c k a now ha
    simp [verify_token, jwtDecode, ha]
  · intro raw now
    simp [verify_token, jwtDecode]

/-- C2 witness: a concrete token round-trip inside and past the ttl. -/
theorem token_roundtrip_witness :
    verify_token (create_access_token 5 (some 100) 1000) 1100 = some "5" ∧
    verify_token (create_access_token 5 (some 100) 1000) 1101 = none :=
  ⟨(token_roundtrip 5 100 1000 1100).1 (by decide),
   (token_roundtrip 5 100 1000 1101).2.1 (by decide)⟩

/-- C9: with a page size of at least 1 (the endpoint declares
`size: ge=1`), the `pages` value computed by the item listing endpoints is
1 when the filtered total is 0, and for a positive total it is exactly the
ceiling of total divided by size: `total` items fit, and no smaller page
count fits them.  In particular 25 items at size 10 give 3 pages. -/
theorem pagesFor_is_ceiling (total size : Nat) (h : 1 ≤ size) :
    (total = 0 → pagesFor total size = 1) ∧
    (0 < total →
      total ≤ pagesFor total size * size ∧
      ∀ m : Nat, total ≤ m * size → pagesFor total size ≤ m) ∧
    pagesFor 25 10 = 3 ∧ pagesFor 0 10 = 1 := by
  have hsQ : (0 : ℚ) < (size : ℚ) := by
    exact_mod_cast Nat.lt_of_lt_of_le Nat.zero_lt_one h
  refine ⟨?_, ?_, ?_, ?_⟩
  · intro h0
    simp [pagesFor, h0]
  · intro hpos
    have hceil_pos : 0 < ⌈(total : ℚ) / (size : ℚ)⌉ := by
      rw [Int.lt_ceil]
      push_cast
      exact div_pos (by exact_mod_cast hpos) hsQ
    have hpages : pagesFor total size = (⌈(total : ℚ) / (size : ℚ)⌉).toNat := by
      simp [pagesFor, pyCeilDiv, hpos]
    constructor
    · rw [hpages]
      have h1 : (total : ℚ) / (size : ℚ) ≤ (⌈(total : ℚ) / (size : ℚ)⌉ : ℚ) :=
        Int.le_ceil _
      have h2 : (total : ℚ) ≤ (⌈(total : ℚ) / (size : ℚ)⌉ : ℚ) * (size : ℚ) :=
        (div_le_iff hsQ).mp h1
      have h3 : (total : ℤ) ≤ ⌈(total : ℚ) / (size : ℚ)⌉ * (size : ℤ) := by
        exact_mod_cast h2
      have h4 : ((⌈(total : ℚ) / (size : ℚ)⌉).toNat : ℤ) =
          ⌈(total : ℚ) / (size : ℚ)⌉ :=
        Int.toNat_of_nonneg (le_of_lt hceil_pos)
      exact_mod_cast h4 ▸ h3
    · intro m hm
      rw [hpages]
      have h1 : (total : ℚ) ≤ (m : ℚ) * (size : ℚ) := by exact_mod_cast hm
      have h2 : (total : ℚ) / (size : ℚ) ≤ (m : ℚ) :=
        (div_le_iff hsQ).mpr h1
      have h3 : ⌈(total : ℚ) / (size : ℚ)⌉ ≤ (m : ℤ) := by
        rw [Int.ceil_le]
        push_cast
        exact h2
      exact_mod_cast Int.toNat_le.mpr h3
  · show pagesFor 25 10 = 3
    have : (⌈(25 : ℚ) / (10 : ℚ)⌉ : ℤ) = 3 := by norm_num [Int.ceil_eq_iff]
    simp [pagesFor, pyCeilDiv, this]
  · simp [pagesFor]

/-- C9 witness: the theorem at a concrete total and size. -/
theorem pagesFor_is_ceiling_witness :
    pagesFor 25 10 = 3 ∧ pagesFor 0 10 = 1 :=
  ⟨(pagesFor_is_ceiling 25 10 (by decide)).2.2.1,
   (pagesFor_is_ceiling 0 10 (by decide)).2.2.2⟩

/-- Nonnegativity of banker's rounding at positive arguments. -/
theorem roundHalfEven_nonneg {q : ℚ} (hq : 0 < q) : 0 ≤ roundHalfEven q := by
  have hf : 0 ≤ ⌊q⌋ := Int.floor_nonneg.mpr (le_of_lt hq)
  unfold roundHalfEven
  split
  · exact hf
  · split
    · omega
    · split
      · exact hf
      · omega

/-- C8 counterexample: the price validator accepts `0.001` and stores it
as `0.0`, which is not strictly positive; and it stores `0.125` (a value
exact in binary floating point) as `0.12`, not the half-up `0.13`. -/
theorem price_validator_counterexample :
    price_must_be_positive (1/1000) = .ok 0 ∧ ¬ (0 < (0 : ℚ)) ∧
    price_must_be_positive (1/8) = .ok (12/100) ∧ ((12 : ℚ)/100 ≠ 13/100) := by
  refine ⟨?_, by norm_num, ?_, by norm_num⟩
  · have h1 : ¬ ((1 : ℚ)/1000 ≤ 0) := by norm_num
    have he : ((1 : ℚ)/1000 * 100) = 1/10 := by norm_num
    have hf : ⌊(1 : ℚ)/10⌋ = 0 := by
      rw [Int.floor_eq_iff] <;> norm_num
    unfold price_must_be_positive pyRound2 roundHalfEven
    rw [if_neg h1, he, hf]
    norm_num
  · have h1 : ¬ ((1 : ℚ)/8 ≤ 0) := by norm_num
    have he : ((1 : ℚ)/8 * 100) = 25/2 := by norm_num
    have hf : ⌊(25 : ℚ)/2⌋ = 12 := by
      rw [Int.floor_eq_iff] <;> norm_num
    unfold price_must_be_positive pyRound2 roundHalfEven
    rw [if_neg h1, he, hf]
    norm_num

/-- C8 amended: the validator rejects every input at most 0 with a
`ValueError`; an accepted price is stored as `round(v, 2)` — CPython
rounding, which is to-nearest with ties to the even hundredths digit, not
half-up — applied *after* the positivity check, so the stored price is
only guaranteed nonnegative (inputs below `0.005` are stored as `0.0`);
the example input `19.999` is indeed stored as `20.0`. -/
theorem price_validator_amended (v : ℚ) :
    (v ≤ 0 → price_must_be_positive v = .error "Price must be greater than 0") ∧
    (0 < v → price_must_be_positive v = .ok (pyRound2 v) ∧ 0 ≤ pyRound2 v) ∧
    price_must_be_positive (19999/1000) = .ok 20 := by
  refine ⟨?_, ?_, ?_⟩
  · intro h
    simp [price_must_be_positive, h]
  · intro h
    have hne : ¬ (v ≤ 0) := not_le.mpr h
    refine ⟨by simp [price_must_be_positive, hne], ?_⟩
    unfold pyRound2
    have hrnn : 0 ≤ roundHalfEven (v * 100) :=
      roundHalfEven_nonneg (by positivity)
    have : (0 : ℚ) ≤ (roundHalfEven (v * 100) : ℚ) := by exact_mod_cast hrnn
    positivity
  · have h1 : ¬ ((19999 : ℚ)/1000 ≤ 0) := by norm_num
    have he : ((19999 : ℚ)/1000 * 100) = 19999/10 := by norm_num
    have hf : ⌊(19999 : ℚ)/10⌋ = 1999 := by
      rw [Int.floor_eq_iff] <;> norm_num
    unfold price_must_be_positive pyRound2 roundHalfEven
    rw [if_neg h1, he, hf]
    norm_num

/-- C8 witness: the amended theorem evaluated at the spec's example price
and at a rejected price. -/
theorem price_validator_amended_witness :
    price_must_be_positive (19999/1000) = .ok 20 ∧
    price_must_be_positive (-1) = .error "Price must be greater than 0" :=
  ⟨(price_validator_amended (19999/1000)).2.2,
   (price_validator_amended (-1)).1 (by norm_num)⟩

/-- C10: every username stored in the username index is produced by the
lower-casing create/update validators, so it contains no uppercase letter;
the login path looks the supplied username up verbatim, hence any username
containing an uppercase letter authenticates to `none` even when the user
registered under its lowercased form exists and the password is correct. -/
theorem uppercase_username_authenticate_none (s : UserStore)
    (un pw : String) (u : UserInDB)
    (hkeys : ∀ p ∈ s.user_by_username, hasUpperChar p.1 = false)
    (hup : hasUpperChar un = true)
    (hreg : get_user_by_username s (pyLower un) = some u)
    (hpw : verify_password pw u.hashed_password = true) :
    authenticate_user s un pw = none ∧
    ∀ v w, validate_username v = .ok w → w = pyLower v := by
  constructor
  · have hnone : dictGet s.user_by_username un = none := by
      apply dictGet_eq_none_of_all_ne
      intro p hp hc
      have := hkeys p hp
      rw [hc, hup] at this
      cases this
    have hgu : get_user_by_username s un = none := by
      unfold get_user_by_username
      rw [hnone]
    unfold authenticate_user
    rw [hgu]
  · intro v w hw
    by_cases h1 : v.length < 3
    · simp [validate_username, h1] at hw
    · by_cases h2 : pyIsAlnum v = true
      · simp [validate_username, h1, h2] at hw
        exact hw.symm
      · simp [validate_username, h1, h2] at hw

/-- C10 witness: the theorem at the concrete store, with the uppercase
login attempt failing although the lowercased user exists and the password
is right. -/
theorem uppercase_username_authenticate_none_witness :
    authenticate_user aliceStore "Alice" "Secret123" = none :=
  (uppercase_username_authenticate_none aliceStore "Alice" "Secret123"
    aliceUser (by decide) (by decide) (by decide) (by decide)).1

/-- A second concrete user, id 2. -/
def bobUser : UserInDB :=
  { aliceUser with
    id := 2
    email := some "b@example.com"
    username := some "bob" }

/-- A concrete item owned by user 1. -/
def demoItem : Item :=
  { id := 1
    title := "Premium Headphones"
    description := none
    price := 5
    status := .active
    owner_id := 1
    created_at := 10
    updated_at := 10 }

/-- A concrete one-item store. -/
def demoItemStore : ItemStore :=
  { items := [(1, demoItem)], next_id := 2 }

/-- C3: `create_user` fails with the Conflict error (HTTP 400) and leaves
the store untouched when the email, or otherwise the username, is already
present in its secondary index; in the remaining case it assigns the next
sequential id, hashes the password, stamps equal creation and update
timestamps, and inserts the user into the primary store and both secondary
indexes. -/
theorem create_user_spec (s : UserStore) (uc : UserCreate) (now : Nat) :
    (dictHasKey s.user_by_email uc.email = true →
      create_user s uc now = (.httpError 400 "Email already registered", s)) ∧
    (dictHasKey s.user_by_email uc.email = false →
     dictHasKey s.user_by_username uc.username = true →
      create_user s uc now = (.httpError 400 "Username already taken", s)) ∧
    (dictHasKey s.user_by_email uc.email = false →
     dictHasKey s.user_by_username uc.username = false →
     ∃ u : UserInDB,
       (create_user s uc now).1 = .ok u ∧
       u.id = s.next_id ∧
       u.email = some uc.email ∧
       u.username = some uc.username ∧
       u.hashed_password = get_password_hash uc.password ∧
       u.created_at = now ∧ u.updated_at = now ∧
       (create_user s uc now).2.next_id = s.next_id + 1 ∧
       dictGet (create_user s uc now).2.users s.next_id = some u ∧
       dictGet (create_user s uc now).2.user_by_email uc.email
         = some s.next_id ∧
       dictGet (create_user s uc now).2.user_by_username uc.username
         = some s.next_id) := by
  refine ⟨?_, ?_, ?_⟩
  · intro h
    simp [create_user, h]
  · intro h1 h2
    simp [create_user, h1, h2]
  · intro h1 h2
    refine ⟨{ id := s.next_id, email := some uc.email,
              username := some uc.username, full_name := uc.full_name,
              hashed_password := get_password_hash uc.password,
              is_active := some uc.is_active,
              is_superuser := some uc.is_superuser,
              created_at := now, updated_at := now },
            ?_, rfl, rfl, rfl, rfl, rfl, rfl, ?_, ?_, ?_, ?_⟩ <;>
      simp [create_user, h1, h2, dictGet_set_self]

/-- C3 witness: at the concrete store, a duplicate email is rejected with
the store unchanged, and a fresh registration is inserted under the next
id. -/
theorem create_user_spec_witness :
    create_user aliceStore
      { email := "a@example.com", username := "bob", full_name := none,
        password := "Passw0rd1", is_active := true, is_superuser := false } 7
      = (.httpError 400 "Email already registered", aliceStore) ∧
    ∃ u : UserInDB,
      (create_user aliceStore
        { email := "b@example.com", username := "bob", full_name := none,
          password := "Passw0rd1", is_active := true, is_superuser := false }
        7).1 = .ok u ∧ u.id = 2 :=
  ⟨(create_user_spec aliceStore _ 7).1 (by decide),
   match (create_user_spec aliceStore
       { email := "b@example.com", username := "bob", full_name := none,
         password := "Passw0rd1", is_active := true, is_superuser := false }
       7).2.2 (by decide) (by decide) with
   | ⟨u, h1, h2, _⟩ => ⟨u, h1, h2⟩⟩

/-- C6: `PUT /items/{id}` and `DELETE /items/{id}` reply 404 when the id
is absent, but `PATCH /items/{id}/status` replies 500 there — its `status`
parameter shadows the `fastapi.status` module, so building the 404 raises
`AttributeError` and the global handler answers 500; all three reply 403
when the acting user is not the owner, the store is returned unchanged in
every failure case, and the status-patch endpoint's reply code is always
200, 403 or 500 — never the documented 404. -/
theorem update_item_status_shadowing_500 (s : ItemStore) (item_id : Nat)
    (p : ItemUpdate) (st : ItemStatus) (user : UserInDB) (now : Nat) :
    (dictGet s.items item_id = none →
      update_item_status s item_id st user now
        = (.failure 500 "Internal server error", s) ∧
      put_item_endpoint s item_id p user now
        = (.failure 404 "Item not found", s) ∧
      delete_item_endpoint s item_id user = ((404, "Item not found"), s)) ∧
    (∀ it, dictGet s.items item_id = some it → it.owner_id ≠ user.id →
      update_item_status s item_id st user now
        = (.failure 403 "Not enough permissions to update this item", s) ∧
      put_item_endpoint s item_id p user now
        = (.failure 403 "Not enough permissions to update this item", s) ∧
      delete_item_endpoint s item_id user
        = ((403, "Not enough permissions to delete this item"), s)) ∧
    ((update_item_status s item_id st user now).1.code = 200 ∨
     (update_item_status s item_id st user now).1.code = 403 ∨
     (update_item_status s item_id st user now).1.code = 500) := by
  refine ⟨?_, ?_, ?_⟩
  · intro h
    refine ⟨?_, ?_, ?_⟩ <;>
      simp [put_item_endpoint, delete_item_endpoint, update_item_status,
        update_item, delete_item, h]
  · intro it h hown
    refine ⟨?_, ?_, ?_⟩ <;>
      simp [put_item_endpoint, delete_item_endpoint, update_item_status,
        update_item, delete_item, h, hown]
  · cases h : dictGet s.items item_id with
    | none =>
      right; right
      simp [update_item_status, update_item, h, ItemHttpReply.code]
    | some it =>
      by_cases hown : it.owner_id = user.id
      · left
        have hno : ¬ (it.owner_id ≠ user.id) := not_not_intro hown
        simp [update_item_status, update_item, h, hno, ItemUpdate.anySet,
          ItemHttpReply.code]
      · right; left
        simp [update_item_status, update_item, h, hown, ItemHttpReply.code]

/-- C6 witness: on the concrete store, the status-patch of a missing id
replies 500 where the same id gets 404 from the PUT endpoint, and a
non-owner gets 403; the store is unchanged each time. -/
theorem update_item_status_shadowing_500_witness :
    update_item_status demoItemStore 99 .archived aliceUser 7
      = (.failure 500 "Internal server error", demoItemStore) ∧
    put_item_endpoint demoItemStore 99 {} aliceUser 7
      = (.failure 404 "Item not found", demoItemStore) ∧
    update_item_status demoItemStore 1 .archived bobUser 7
      = (.failure 403 "Not enough permissions to update this item",
         demoItemStore) :=
  ⟨((update_item_status_shadowing_500 demoItemStore 99 {} .archived aliceUser
      7).1 (by decide)).1,
   ((update_item_status_shadowing_500 demoItemStore 99 {} .archived aliceUser
      7).1 (by decide)).2.1,
   (((update_item_status_shadowing_500 demoItemStore 1 {} .archived bobUser
      7).2.1) demoItem (by decide) (by decide)).1⟩

/-! ## Sorting lemmas for the item listing -/

/-- The comparator is total. -/
theorem itemSortLe_total (p q : Nat × Item) :
    itemSortLe p q = true ∨ itemSortLe q p = true := by
  unfold itemSortLe
  rcases Nat.lt_trichotomy p.2.created_at q.2.created_at with h | h | h
  · right
    simp [h]
  · rcases Nat.le_total p.1 q.1 with h1 | h1
    · left
      simp [h, h1]
    · right
      simp [h.symm, h1]
  · left
    simp [h]

/-- The comparator is transitive. -/
theorem itemSortLe_trans {p q r : Nat × Item} (h1 : itemSortLe p q = true)
    (h2 : itemSortLe q r = true) : itemSortLe p r = true := by
  unfold itemSortLe at h1 h2 ⊢
  simp only [Bool.or_eq_true, Bool.and_eq_true, decide_eq_true_eq] at h1 h2 ⊢
  omega

/-- Inserting permutes. -/
theorem insertItemDesc_perm (x : Nat × Item) (l : List (Nat × Item)) :
    (insertItemDesc x l).Perm (x :: l) := by
  induction l with
  | nil => exact List.Perm.refl _
  | cons y r ih =>
    unfold insertItemDesc
    by_cases h : itemSortLe x y = true
    · rw [if_pos h]
    · rw [if_neg h]
      exact (ih.cons y).trans (List.Perm.swap x y r)

/-- The sort permutes. -/
theorem sortItemsEnum_perm (l : List (Nat × Item)) :
    (sortItemsEnum l).Perm l := by
  induction l with
  | nil => exact List.Perm.refl _
  | cons x r ih =>
    unfold sortItemsEnum
    exact (insertItemDesc_perm x (sortItemsEnum r)).trans (ih.cons x)

/-- Inserting preserves sortedness. -/
theorem insertItemDesc_pairwise {x : Nat × Item} {l : List (Nat × Item)}
    (hl : l.Pairwise (fun a b => itemSortLe a b = true)) :
    (insertItemDesc x l).Pairwise (fun a b => itemSortLe a b = true) := by
  induction l with
  | nil => simp [insertItemDesc]
  | cons y r ih =>
    unfold insertItemDesc
    rcases List.pairwise_cons.mp hl with ⟨hy, hr⟩
    by_cases h : itemSortLe x y = true
    · rw [if_pos h]
      refine List.pairwise_cons.mpr ⟨?_, hl⟩
      intro b hb
      rcases List.mem_cons.mp hb with rfl | hb
      · exact h
      · exact itemSortLe_trans h (hy b hb)
    · rw [if_neg h]
      have hyx : itemSortLe y x = true := (itemSortLe_total x y).resolve_left h
      refine List.pairwise_cons.mpr ⟨?_, ih hr⟩
      intro b hb
      rcases List.mem_cons.mp ((insertItemDesc_perm x r).subset hb)
        with rfl | hb'
      · exact hyx
      · exact hy b hb'

/-- The sort is sorted. -/
theorem sortItemsEnum_pairwise (l : List (Nat × Item)) :
    (sortItemsEnum l).Pairwise (fun a b => itemSortLe a b = true) := by
  induction l with
  | nil => simp [sortItemsEnum]
  | cons x r ih => exact insertItemDesc_pairwise ih

/-- The filter predicate of the claim (amended): equality on status when a
status filter is given, equality on owner when a *nonzero* owner filter is
given — an owner filter of 0 is ignored. -/
def specItemFilter (status : Option ItemStatus) (owner_id : Option Nat)
    (i : Item) : Bool :=
  (match status with
   | some st => decide (i.status = st)
   | none => true) &&
  (match owner_id with
   | some oid => if oid = 0 then true else decide (i.owner_id = oid)
   | none => true)

/-- Strict ordering on position-tagged items: newest first, ties broken by
the original (insertion) position. -/
def itemLexStrict (p q : Nat × Item) : Prop :=
  q.2.created_at < p.2.created_at ∨
    (p.2.created_at = q.2.created_at ∧ p.1 < q.1)

/-- The two sequential truthiness-guarded filters equal the single
conjunctive filter. -/
theorem applyItemFilters_eq_filter (items : List Item)
    (st : Option ItemStatus) (ow : Option Nat) :
    applyItemFilters items st ow = items.filter (specItemFilter st ow) := by
  cases st with
  | none =>
    cases ow with
    | none =>
      rw [List.filter_congr
        (fun a _ => by simp [specItemFilter] : ∀ a ∈ items,
          specItemFilter none none a = (fun _ => true) a)]
      simp [applyItemFilters]
    | some oid =>
      by_cases h : oid = 0
      · rw [List.filter_congr
          (fun a _ => by simp [specItemFilter, h] : ∀ a ∈ items,
            specItemFilter none (some oid) a = (fun _ => true) a)]
        simp [applyItemFilters, h]
      · rw [List.filter_congr
          (fun a _ => by simp [specItemFilter, h] : ∀ a ∈ items,
            specItemFilter none (some oid) a
              = (fun i => decide (i.owner_id = oid)) a)]
        simp [applyItemFilters, h]
  | some stv =>
    cases ow with
    | none =>
      rw [List.filter_congr
        (fun a _ => by simp [specItemFilter] : ∀ a ∈ items,
          specItemFilter (some stv) none a
            = (fun i => decide (i.status = stv)) a)]
      simp [applyItemFilters]
    | some oid =>
      by_cases h : oid = 0
      · rw [List.filter_congr
          (fun a _ => by simp [specItemFilter, h] : ∀ a ∈ items,
            specItemFilter (some stv) (some oid) a
              = (fun i => decide (i.status = stv)) a)]
        simp [applyItemFilters, h]
      · rw [List.filter_congr
          (fun a _ => by simp [specItemFilter, h, Bool.and_comm] : ∀ a ∈ items,
            specItemFilter (some stv) (some oid) a
              = (fun i => decide (i.owner_id = oid)
                  && decide (i.status = stv)) a)]
        simp [applyItemFilters, h, List.filter_filter]

/-- C7 amended: `get_items` returns the slice `[skip, skip+limit)` of the
filtered items — status equality when a status filter is given, owner
equality when a nonzero owner filter is given (an owner filter of 0 is
falsy and ignored) — arranged in the unique order that is descending on
creation time with ties kept in insertion order. -/
theorem get_items_spec (s : ItemStore) (skip limit : Nat)
    (st : Option ItemStatus) (ow : Option Nat) :
    ∃ l : List (Nat × Item),
      l.Perm ((dictValues s.items).filter (specItemFilter st ow)).enum ∧
      l.Pairwise itemLexStrict ∧
      get_items s skip limit st ow
        = ((l.map (fun p => p.2)).drop skip).take limit := by
  refine ⟨sortItemsEnum ((dictValues s.items).filter
      (specItemFilter st ow)).enum, sortItemsEnum_perm _, ?_, ?_⟩
  · have hpw := sortItemsEnum_pairwise
      ((dictValues s.items).filter (specItemFilter st ow)).enum
    have hperm := sortItemsEnum_perm
      ((dictValues s.items).filter (specItemFilter st ow)).enum
    have hnodup : ((sortItemsEnum ((dictValues s.items).filter
        (specItemFilter st ow)).enum).map Prod.fst).Nodup :=
      ((hperm.map Prod.fst).nodup_iff).mpr (List.nodup_enum_map_fst _)
    have hne : (sortItemsEnum ((dictValues s.items).filter
        (specItemFilter st ow)).enum).Pairwise (fun a b => a.1 ≠ b.1) :=
      (List.pairwise_map.mp hnodup)
    refine (hpw.and hne).imp ?_
    intro a b hab
    rcases hab with ⟨hle, hne'⟩
    unfold itemSortLe at hle
    simp only [Bool.or_eq_true, Bool.and_eq_true, decide_eq_true_eq] at hle
    rcases hle with h | ⟨heq, hle'⟩
    · exact Or.inl h
    · exact Or.inr ⟨heq, lt_of_le_of_ne hle' hne'⟩
  · unfold get_items
    dsimp only
    rw [applyItemFilters_eq_filter]
    rfl

/-- C7 counterexample: with the owner filter `0` the code ignores the
filter — it returns an item whose owner is not 0, where the claim demands
the empty result. -/
theorem get_items_owner_zero_counterexample :
    get_items demoItemStore 0 10 none (some 0) = [demoItem] ∧
    demoItem.owner_id ≠ 0 := by
  constructor
  · rfl
  · decide

/-! ## The user-store invariant

The invariant of the spec: each secondary index maps exactly the emails
(usernames) of the users currently in the primary store to those users'
ids.  `idsBounded` additionally records that ids already handed out are
below `next_id` (true in every reachable state), which creation needs in
order not to overwrite an existing user. -/

/-- Ids in use are below the id counter. -/
def idsBounded (s : UserStore) : Bool :=
  s.users.all (fun p => decide (p.1 < s.next_id))

/-- Every email-index entry points at a user carrying exactly that email. -/
def emailIdxOk (s : UserStore) : Bool :=
  s.user_by_email.all (fun p =>
    match dictGet s.users p.2 with
    | some u => decide (u.email = some p.1)
    | none => false)

/-- Every user's email is a string indexed back to the user's id. -/
def usersEmailOk (s : UserStore) : Bool :=
  s.users.all (fun p =>
    match p.2.email with
    | some e => decide (dictGet s.user_by_email e = some p.1)
    | none => false)

/-- Every username-index entry points at a user carrying that username. -/
def usernameIdxOk (s : UserStore) : Bool :=
  s.user_by_username.all (fun p =>
    match dictGet s.users p.2 with
    | some u => decide (u.username = some p.1)
    | none => false)

/-- Every user's username is a string indexed back to the user's id. -/
def usersUsernameOk (s : UserStore) : Bool :=
  s.users.all (fun p =>
    match p.2.username with
    | some un => decide (dictGet s.user_by_username un = some p.1)
    | none => false)

/-- The store invariant, decidably. -/
def storeWF (s : UserStore) : Bool :=
  idsBounded s && emailIdxOk s && usersEmailOk s &&
    usernameIdxOk s && usersUsernameOk s

/-- The store invariant as a proposition. -/
def StoreInv (s : UserStore) : Prop :=
  (∀ p ∈ s.users, p.1 < s.next_id) ∧
  (∀ p ∈ s.user_by_email,
    ∃ u, dictGet s.users p.2 = some u ∧ u.email = some p.1) ∧
  (∀ p ∈ s.users,
    ∃ e, p.2.email = some e ∧ dictGet s.user_by_email e = some p.1) ∧
  (∀ p ∈ s.user_by_username,
    ∃ u, dictGet s.users p.2 = some u ∧ u.username = some p.1) ∧
  (∀ p ∈ s.users,
    ∃ un, p.2.username = some un ∧ dictGet s.user_by_username un = some p.1)

theorem storeWF_iff (s : UserStore) : storeWF s = true ↔ StoreInv s := by
  unfold storeWF StoreInv idsBounded emailIdxOk usersEmailOk usernameIdxOk
    usersUsernameOk
  simp only [Bool.and_eq_true, List.all_eq_true, and_assoc]
  refine and_congr ?_ (and_congr ?_ (and_congr ?_ (and_congr ?_ ?_)))
  · exact forall₂_congr fun p _ => by simp
  · refine forall₂_congr fun p _ => ?_
    cases hg : dictGet s.users p.2 <;> simp [hg]
  · refine forall₂_congr fun p _ => ?_
    cases hg : p.2.email <;> simp [hg]
  · refine forall₂_congr fun p _ => ?_
    cases hg : dictGet s.users p.2 <;> simp [hg]
  · refine forall₂_congr fun p _ => ?_
    cases hg : p.2.username <;> simp [hg]

/-- An explicitly-set patch field that carries an actual (nonempty) value
rather than JSON `null`. -/
def patchFieldProper : Option (Option String) → Bool
  | some none => false
  | some (some v) => decide (v ≠ "")
  | none => true

/-- The condition of the email-change truthiness guards of `update_user`. -/
def emailChangeRequested (pu : UserUpdate) (user : UserInDB) : Prop :=
  strOptTruthy pu.emailVal = true ∧ pu.emailVal ≠ user.email

/-- The condition of the username-change guards of `update_user`. -/
def usernameChangeRequested (pu : UserUpdate) (user : UserInDB) : Prop :=
  strOptTruthy pu.usernameVal = true ∧ pu.usernameVal ≠ user.username

instance (pu : UserUpdate) (user : UserInDB) :
    Decidable (emailChangeRequested pu user) := by
  unfold emailChangeRequested
  infer_instance

instance (pu : UserUpdate) (user : UserInDB) :
    Decidable (usernameChangeRequested pu user) := by
  unfold usernameChangeRequested
  infer_instance

/-! ## Evaluation lemmas for `update_user` -/

theorem update_user_notFound (s : UserStore) (uid : Nat) (pu : UserUpdate)
    (now : Nat) (h : dictGet s.users uid = none) :
    update_user s uid pu now = (.ok none, s) := by
  unfold update_user
  rw [h]

theorem update_user_email_conflict (s : UserStore) (uid : Nat)
    (pu : UserUpdate) (now : Nat) (user : UserInDB)
    (hu : dictGet s.users uid = some user)
    (hc : strOptTruthy pu.emailVal = true ∧ pu.emailVal ≠ user.email)
    (hk : dictHasKey s.user_by_email (pu.emailVal.getD "") = true) :
    update_user s uid pu now
      = (.httpError 400 "Email already registered", s) := by
  unfold update_user
  rw [hu]
  dsimp only
  rw [if_pos hc, if_pos hk]

theorem update_user_to_check (s : UserStore) (uid : Nat) (pu : UserUpdate)
    (now : Nat) (user : UserInDB)
    (hu : dictGet s.users uid = some user)
    (h : strOptTruthy pu.emailVal = true ∧ pu.emailVal ≠ user.email →
      dictHasKey s.user_by_email (pu.emailVal.getD "") = false) :
    update_user s uid pu now = update_user_checkUsername s uid user pu now := by
  unfold update_user
  rw [hu]
  dsimp only
  by_cases hc : strOptTruthy pu.emailVal = true ∧ pu.emailVal ≠ user.email
  · rw [if_pos hc, if_neg (by simp [h hc])]
  · rw [if_neg hc]

theorem check_username_conflict (s : UserStore) (uid : Nat) (user : UserInDB)
    (pu : UserUpdate) (now : Nat)
    (hc : strOptTruthy pu.usernameVal = true ∧ pu.usernameVal ≠ user.username)
    (hk : dictHasKey s.user_by_username (pu.usernameVal.getD "") = true) :
    update_user_checkUsername s uid user pu now
      = (.httpError 400 "Username already taken", s) := by
  unfold update_user_checkUsername
  rw [if_pos hc, if_pos hk]

theorem check_username_to_apply (s : UserStore) (uid : Nat) (user : UserInDB)
    (pu : UserUpdate) (now : Nat)
    (h : strOptTruthy pu.usernameVal = true ∧ pu.usernameVal ≠ user.username →
      dictHasKey s.user_by_username (pu.usernameVal.getD "") = false) :
    update_user_checkUsername s uid user pu now
      = update_user_apply s uid user pu now := by
  unfold update_user_checkUsername
  by_cases hc : strOptTruthy pu.usernameVal = true ∧ pu.usernameVal ≠ user.username
  · rw [if_pos hc, if_neg (by simp [h hc])]
  · rw [if_neg hc]

theorem update_user_apply_noop (s : UserStore) (uid : Nat) (user : UserInDB)
    (pu : UserUpdate) (now : Nat) (h : pu.anySet = false) :
    update_user_apply s uid user pu now = (.ok (some user), s) := by
  unfold update_user_apply
  rw [if_neg (by simp [h])]

theorem update_user_apply_eval (s : UserStore) (uid : Nat) (user : UserInDB)
    (pu : UserUpdate) (now : Nat) (byE byU : List (String × Nat))
    (hset : pu.anySet = true)
    (hE : (if strOptTruthy pu.emailVal ∧ pu.emailVal ≠ user.email then
             match user.email with
             | some old_email =>
               (dictDel s.user_by_email old_email).map
                 (fun d => dictSet d (pu.emailVal.getD "") uid)
             | none => none
           else some s.user_by_email) = some byE)
    (hU : (if strOptTruthy pu.usernameVal ∧ pu.usernameVal ≠ user.username then
             match user.username with
             | some old_username =>
               (dictDel s.user_by_username old_username).map
                 (fun d => dictSet d (pu.usernameVal.getD "") uid)
             | none => none
           else some s.user_by_username) = some byU) :
    update_user_apply s uid user pu now =
      (.ok (some { applyUserPatch user pu with updated_at := now }),
       { users := dictSet s.users uid
           { applyUserPatch user pu with updated_at := now }
         user_by_email := byE
         user_by_username := byU
         next_id := s.next_id }) := by
  unfold update_user_apply
  rw [if_pos (by simp [hset])]
  dsimp only
  rw [hE]
  dsimp only
  rw [hU]

/-! ## Index consistency under update

Generic over the accessor (`.email` or `.username`) and its index. -/

theorem index_moved_ok (acc : UserInDB → Option String)
    {users : List (Nat × UserInDB)} {idx : List (String × Nat)}
    {uid : Nat} {user u' : UserInDB} {olde newe : String}
    {de : List (String × Nat)}
    (hu : dictGet users uid = some user)
    (hidx : ∀ p ∈ idx, ∃ u2, dictGet users p.2 = some u2 ∧ acc u2 = some p.1)
    (husr : ∀ p ∈ users, ∃ e, acc p.2 = some e ∧ dictGet idx e = some p.1)
    (holde : acc user = some olde)
    (holdeIdx : dictGet idx olde = some uid)
    (hdel : dictDel idx olde = some de)
    (hnew : dictHasKey idx newe = false)
    (hacc : acc u' = some newe) :
    (∀ p ∈ dictSet de newe uid, ∃ u2,
       dictGet (dictSet users uid u') p.2 = some u2 ∧ acc u2 = some p.1) ∧
    (∀ p ∈ dictSet users uid u', ∃ e,
       acc p.2 = some e ∧ dictGet (dictSet de newe uid) e = some p.1) := by
  constructor
  · intro p hp
    rcases mem_dictSet hp with rfl | ⟨hm, hpne⟩
    · exact ⟨u', by rw [dictGet_set_self], hacc⟩
    · obtain ⟨hmIdx, hpnolde⟩ := mem_of_mem_dictDel hdel hm
      obtain ⟨u2, hu2, hu2acc⟩ := hidx p hmIdx
      have hp2 : p.2 ≠ uid := by
        intro hc
        rw [hc, hu] at hu2
        cases Option.some_inj.mp hu2
        rw [holde] at hu2acc
        exact hpnolde (Option.some_inj.mp hu2acc).symm
      exact ⟨u2, by rw [dictGet_set_ne _ _ _ _ hp2]; exact hu2, hu2acc⟩
  · intro p hp
    rcases mem_dictSet hp with rfl | ⟨hm, hpne⟩
    · exact ⟨newe, hacc, by rw [dictGet_set_self]⟩
    · obtain ⟨e, hacc2, hidx2⟩ := husr p hm
      have hene : e ≠ newe := by
        intro hc
        rw [hc] at hidx2
        rw [dictGet_eq_none_of_hasKey_eq_false hnew] at hidx2
        cases hidx2
      have heolde : e ≠ olde := by
        intro hc
        rw [hc, holdeIdx] at hidx2
        exact hpne (Option.some_inj.mp hidx2).symm
      refine ⟨e, hacc2, ?_⟩
      rw [dictGet_set_ne _ _ _ _ hene, dictGet_dictDel_ne hdel e heolde]
      exact hidx2

theorem index_unchanged_ok (acc : UserInDB → Option String)
    {users : List (Nat × UserInDB)} {idx : List (String × Nat)}
    {uid : Nat} {user u' : UserInDB}
    (hu : dictGet users uid = some user)
    (hidx : ∀ p ∈ idx, ∃ u2, dictGet users p.2 = some u2 ∧ acc u2 = some p.1)
    (husr : ∀ p ∈ users, ∃ e, acc p.2 = some e ∧ dictGet idx e = some p.1)
    (hacc : acc u' = acc user) :
    (∀ p ∈ idx, ∃ u2,
       dictGet (dictSet users uid u') p.2 = some u2 ∧ acc u2 = some p.1) ∧
    (∀ p ∈ dictSet users uid u', ∃ e,
       acc p.2 = some e ∧ dictGet idx e = some p.1) := by
  constructor
  · intro p hp
    obtain ⟨u2, hu2, hu2acc⟩ := hidx p hp
    by_cases hp2 : p.2 = uid
    · refine ⟨u', by rw [hp2, dictGet_set_self], ?_⟩
      rw [hp2, hu] at hu2
      cases Option.some_inj.mp hu2
      rw [hacc]
      exact hu2acc
    · exact ⟨u2, by rw [dictGet_set_ne _ _ _ _ hp2]; exact hu2, hu2acc⟩
  · intro p hp
    rcases mem_dictSet hp with rfl | ⟨hm, hpne⟩
    · obtain ⟨e, hacc2, hidx2⟩ := husr (uid, user) (dictGet_eq_some_mem hu)
      exact ⟨e, by rw [hacc]; exact hacc2, hidx2⟩
    · exact husr p hm

theorem idsBounded_after_set {users : List (Nat × UserInDB)}
    {next uid : Nat} (u' : UserInDB)
    (hb : ∀ p ∈ users, p.1 < next) (huid : uid < next) :
    ∀ p ∈ dictSet users uid u', p.1 < next := by
  intro p hp
  rcases mem_dictSet hp with rfl | ⟨hm, _⟩
  · exact huid
  · exact hb p hm

theorem strOptTruthy_iff {o : Option String} :
    strOptTruthy o = true ↔ ∃ e, o = some e ∧ e ≠ "" := by
  cases o <;> simp [strOptTruthy]

theorem emailVal_some {pu : UserUpdate} {e : String} :
    pu.emailVal = some e ↔ pu.email = some (some e) := by
  unfold UserUpdate.emailVal
  cases hp : pu.email with
  | none => simp
  | some x => cases x <;> simp

theorem usernameVal_some {pu : UserUpdate} {un : String} :
    pu.usernameVal = some un ↔ pu.username = some (some un) := by
  unfold UserUpdate.usernameVal
  cases hp : pu.username with
  | none => simp
  | some x => cases x <;> simp

theorem anySet_of_email {pu : UserUpdate} {x : Option String}
    (h : pu.email = some x) : pu.anySet = true := by
  unfold UserUpdate.anySet
  rw [h]
  simp

theorem anySet_of_username {pu : UserUpdate} {x : Option String}
    (h : pu.username = some x) : pu.anySet = true := by
  unfold UserUpdate.anySet
  rw [h]
  simp

/-- The successful (non-conflicting) update: evaluation, field-wise frame
conditions, index movement, and preservation of the store invariant, for
patches whose set string fields carry actual values. -/
theorem update_user_success (s : UserStore) (uid : Nat) (pu : UserUpdate)
    (now : Nat) (user : UserInDB)
    (hu : dictGet s.users uid = some user)
    (hwf : storeWF s = true)
    (hpe : patchFieldProper pu.email = true)
    (hpn : patchFieldProper pu.username = true)
    (hce : strOptTruthy pu.emailVal = true → pu.emailVal ≠ user.email →
      dictHasKey s.user_by_email (pu.emailVal.getD "") = false)
    (hcn : strOptTruthy pu.usernameVal = true →
      pu.usernameVal ≠ user.username →
      dictHasKey s.user_by_username (pu.usernameVal.getD "") = false) :
    ∃ u' s', update_user s uid pu now = (.ok (some u'), s') ∧
      (pu.anySet = false → u' = user ∧ s' = s) ∧
      (pu.anySet = true →
        u' = { applyUserPatch user pu with updated_at := now }) ∧
      dictGet s'.users uid = some u' ∧
      (∀ oid, oid ≠ uid → dictGet s'.users oid = dictGet s.users oid) ∧
      s'.next_id = s.next_id ∧
      (∀ e, pu.email = some (some e) → some e ≠ user.email →
        dictGet s'.user_by_email e = some uid ∧
        ∀ olde, user.email = some olde →
          dictGet s'.user_by_email olde = none) ∧
      (¬ (strOptTruthy pu.emailVal = true ∧ pu.emailVal ≠ user.email) →
        s'.user_by_email = s.user_by_email) ∧
      (∀ un, pu.username = some (some un) → some un ≠ user.username →
        dictGet s'.user_by_username un = some uid ∧
        ∀ oldu, user.username = some oldu →
          dictGet s'.user_by_username oldu = none) ∧
      (¬ (strOptTruthy pu.usernameVal = true ∧
          pu.usernameVal ≠ user.username) →
        s'.user_by_username = s.user_by_username) ∧
      storeWF s' = true := by
  have hstep : update_user s uid pu now = update_user_apply s uid user pu now := by
    rw [update_user_to_check s uid pu now user hu (fun hc => hce hc.1 hc.2),
      check_username_to_apply s uid user pu now (fun hc => hcn hc.1 hc.2)]
  by_cases hset : pu.anySet = true
  case neg =>
    have hset' : pu.anySet = false := by
      cases hx : pu.anySet
      · rfl
      · exact absurd hx hset
    refine ⟨user, s, ?_, fun _ => ⟨rfl, rfl⟩, fun hc => absurd hc hset, hu,
      fun _ _ => rfl, rfl, ?_, fun _ => rfl, ?_, fun _ => rfl, hwf⟩
    · rw [hstep]
      exact update_user_apply_noop s uid user pu now hset'
    · intro e he _
      exact absurd (anySet_of_email he) hset
    · intro un hn _
      exact absurd (anySet_of_username hn) hset
  case pos =>
    obtain ⟨hbound, hidxE, husrE, hidxU, husrU⟩ := (storeWF_iff s).mp hwf
    have hmem : (uid, user) ∈ s.users := dictGet_eq_some_mem hu
    obtain ⟨olde, holde, holdeIdx⟩ := husrE (uid, user) hmem
    obtain ⟨oldu, holdu, holduIdx⟩ := husrU (uid, user) hmem
    have holde' : user.email = some olde := holde
    have holdeIdx' : dictGet s.user_by_email olde = some uid := holdeIdx
    have holdu' : user.username = some oldu := holdu
    have holduIdx' : dictGet s.user_by_username oldu = some uid := holduIdx
    have huidlt : uid < s.next_id := hbound (uid, user) hmem
    have hu'ok : ∀ x : Option String, pu.email = some x →
        ({ applyUserPatch user pu with updated_at := now } : UserInDB).email
          = x := by
      intro x hx
      simp [applyUserPatch, hx]
    have hu'okU : ∀ x : Option String, pu.username = some x →
        ({ applyUserPatch user pu with updated_at := now } : UserInDB).username
          = x := by
      intro x hx
      simp [applyUserPatch, hx]
    have hu'unset : pu.email = none →
        ({ applyUserPatch user pu with updated_at := now } : UserInDB).email
          = user.email := by
      intro hx
      simp [applyUserPatch, hx]
    have hu'unsetU : pu.username = none →
        ({ applyUserPatch user pu with updated_at := now } : UserInDB).username
          = user.username := by
      intro hx
      simp [applyUserPatch, hx]
    -- the email-index step
    have hEpack : ∃ byE,
        (if strOptTruthy pu.emailVal ∧ pu.emailVal ≠ user.email then
           match user.email with
           | some old_email =>
             (dictDel s.user_by_email old_email).map
               (fun d => dictSet d (pu.emailVal.getD "") uid)
           | none => none
         else some s.user_by_email) = some byE ∧
        (∀ p ∈ byE, ∃ u2,
          dictGet (dictSet s.users uid
            { applyUserPatch user pu with updated_at := now }) p.2 = some u2 ∧
          u2.email = some p.1) ∧
        (∀ p ∈ dictSet s.users uid
            { applyUserPatch user pu with updated_at := now }, ∃ e2,
          p.2.email = some e2 ∧ dictGet byE e2 = some p.1) ∧
        (∀ e, pu.email = some (some e) → some e ≠ user.email →
          dictGet byE e = some uid ∧
          ∀ olde2, user.email = some olde2 → dictGet byE olde2 = none) ∧
        (¬ (strOptTruthy pu.emailVal = true ∧ pu.emailVal ≠ user.email) →
          byE = s.user_by_email) := by
      by_cases hech : strOptTruthy pu.emailVal = true ∧ pu.emailVal ≠ user.email
      · obtain ⟨e, heval, hene⟩ := strOptTruthy_iff.mp hech.1
        have hemail : pu.email = some (some e) := emailVal_some.mp heval
        have hgetD : pu.emailVal.getD "" = e := by rw [heval]; rfl
        have hnewkey : dictHasKey s.user_by_email e = false := by
          have h0 := hce hech.1 hech.2
          rwa [hgetD] at h0
        have hnolde : e ≠ olde := by
          intro hc
          exact hech.2 (by rw [heval, holde', hc])
        have hkolde : dictHasKey s.user_by_email olde = true :=
          dictHasKey_of_get_eq_some holdeIdx'
        have hdel := dictDel_isSome_of_hasKey hkolde
        have hu'e : ({ applyUserPatch user pu with
            updated_at := now } : UserInDB).email = some e := hu'ok _ hemail
        obtain ⟨hmvIdx, hmvUsr⟩ := index_moved_ok (fun u => u.email)
          hu hidxE husrE holde' holdeIdx' hdel hnewkey hu'e
        refine ⟨dictSet (s.user_by_email.filter
            (fun p => !decide (p.1 = olde))) e uid, ?_, hmvIdx, hmvUsr, ?_, ?_⟩
        · rw [if_pos hech, holde']
          dsimp only
          rw [hdel, hgetD]
          rfl
        · intro e2 he2 hne2
          have he2e : e2 = e := by
            have : pu.emailVal = some e2 := emailVal_some.mpr he2
            rw [heval] at this
            exact (Option.some_inj.mp this).symm
          subst he2e
          constructor
          · rw [dictGet_set_self]
          · intro olde2 holde2
            have : olde2 = olde := by
              rw [holde'] at holde2
              exact Option.some_inj.mp holde2.symm
            subst this
            rw [dictGet_set_ne _ _ _ _ (Ne.symm hnolde)]
            exact dictGet_dictDel_self hdel
        · intro hc
          exact absurd hech hc
      · have hu'e : ({ applyUserPatch user pu with
            updated_at := now } : UserInDB).email = user.email := by
          cases hx : pu.email with
          | none => exact hu'unset hx
          | some y =>
            cases y with
            | none =>
              rw [hx] at hpe
              simp [patchFieldProper] at hpe
            | some e2 =>
              have hproper : e2 ≠ "" := by
                rw [hx] at hpe
                simpa [patchFieldProper] using hpe
              have htruthy : strOptTruthy pu.emailVal = true := by
                rw [emailVal_some.mpr hx]
                simpa [strOptTruthy] using hproper
              have heq : pu.emailVal = user.email := by
                by_contra hne2
                exact hech ⟨htruthy, hne2⟩
              rw [hu'ok _ hx, ← emailVal_some.mpr hx, heq]
        obtain ⟨hmvIdx, hmvUsr⟩ := index_unchanged_ok (fun u => u.email)
          hu hidxE husrE hu'e
        refine ⟨s.user_by_email, by rw [if_neg hech], hmvIdx, hmvUsr, ?_,
          fun _ => rfl⟩
        intro e2 he2 hne2
        exfalso
        have hproper : e2 ≠ "" := by
          rw [he2] at hpe
          simpa [patchFieldProper] using hpe
        have htruthy : strOptTruthy pu.emailVal = true := by
          rw [emailVal_some.mpr he2]
          simpa [strOptTruthy] using hproper
        apply hech
        refine ⟨htruthy, ?_⟩
        rw [emailVal_some.mpr he2]
        exact hne2
    -- the username-index step
    have hUpack : ∃ byU,
        (if strOptTruthy pu.usernameVal ∧ pu.usernameVal ≠ user.username then
           match user.username with
           | some old_username =>
             (dictDel s.user_by_username old_username).map
               (fun d => dictSet d (pu.usernameVal.getD "") uid)
           | none => none
         else some s.user_by_username) = some byU ∧
        (∀ p ∈ byU, ∃ u2,
          dictGet (dictSet s.users uid
            { applyUserPatch user pu with updated_at := now }) p.2 = some u2 ∧
          u2.username = some p.1) ∧
        (∀ p ∈ dictSet s.users uid
            { applyUserPatch user pu with updated_at := now }, ∃ un2,
          p.2.username = some un2 ∧ dictGet byU un2 = some p.1) ∧
        (∀ un, pu.username = some (some un) → some un ≠ user.username →
          dictGet byU un = some uid ∧
          ∀ oldu2, user.username = some oldu2 → dictGet byU oldu2 = none) ∧
        (¬ (strOptTruthy pu.usernameVal = true ∧
            pu.usernameVal ≠ user.username) →
          byU = s.user_by_username) := by
      by_cases huch : strOptTruthy pu.usernameVal = true ∧
          pu.usernameVal ≠ user.username
      · obtain ⟨un, huval, hune⟩ := strOptTruthy_iff.mp huch.1
        have husername : pu.username = some (some un) := usernameVal_some.mp huval
        have hgetD : pu.usernameVal.getD "" = un := by rw [huval]; rfl
        have hnewkey : dictHasKey s.user_by_username un = false := by
          have h0 := hcn huch.1 huch.2
          rwa [hgetD] at h0
        have hnoldu : un ≠ oldu := by
          intro hc
          exact huch.2 (by rw [huval, holdu', hc])
        have hkoldu : dictHasKey s.user_by_username oldu = true :=
          dictHasKey_of_get_eq_some holduIdx'
        have hdel := dictDel_isSome_of_hasKey hkoldu
        have hu'un : ({ applyUserPatch user pu with
            updated_at := now } : UserInDB).username = some un :=
          hu'okU _ husername
        obtain ⟨hmvIdx, hmvUsr⟩ := index_moved_ok (fun u => u.username)
          hu hidxU husrU holdu' holduIdx' hdel hnewkey hu'un
        refine ⟨dictSet (s.user_by_username.filter
            (fun p => !decide (p.1 = oldu))) un uid, ?_, hmvIdx, hmvUsr, ?_, ?_⟩
        · rw [if_pos huch, holdu']
          dsimp only
          rw [hdel, hgetD]
          rfl
        · intro un2 hun2 hne2
          have hun2un : un2 = un := by
            have : pu.usernameVal = some un2 := usernameVal_some.mpr hun2
            rw [huval] at this
            exact (Option.some_inj.mp this).symm
          subst hun2un
          constructor
          · rw [dictGet_set_self]
          · intro oldu2 holdu2
            have : oldu2 = oldu := by
              rw [holdu'] at holdu2
              exact Option.some_inj.mp holdu2.symm
            subst this
            rw [dictGet_set_ne _ _ _ _ (Ne.symm hnoldu)]
            exact dictGet_dictDel_self hdel
        · intro hc
          exact absurd huch hc
      · have hu'un : ({ applyUserPatch user pu with
            updated_at := now } : UserInDB).username = user.username := by
          cases hx : pu.username with
          | none => exact hu'unsetU hx
          | some y =>
            cases y with
            | none =>
              rw [hx] at hpn
              simp [patchFieldProper] at hpn
            | some un2 =>
              have hproper : un2 ≠ "" := by
                rw [hx] at hpn
                simpa [patchFieldProper] using hpn
              have htruthy : strOptTruthy pu.usernameVal = true := by
                rw [usernameVal_some.mpr hx]
                simpa [strOptTruthy] using hproper
              have heq : pu.usernameVal = user.username := by
                by_contra hne2
                exact huch ⟨htruthy, hne2⟩
              rw [hu'okU _ hx, ← usernameVal_some.mpr hx, heq]
        obtain ⟨hmvIdx, hmvUsr⟩ := index_unchanged_ok
          (fun u => u.username) hu hidxU husrU hu'un
        refine ⟨s.user_by_username, by rw [if_neg huch], hmvIdx, hmvUsr, ?_,
          fun _ => rfl⟩
        intro un2 hun2 hne2
        exfalso
        have hproper : un2 ≠ "" := by
          rw [hun2] at hpn
          simpa [patchFieldProper] using hpn
        have htruthy : strOptTruthy pu.usernameVal = true := by
          rw [usernameVal_some.mpr hun2]
          simpa [strOptTruthy] using hproper
        apply huch
        refine ⟨htruthy, ?_⟩
        rw [usernameVal_some.mpr hun2]
        exact hne2
    obtain ⟨byE, hE, hEidx, hEusr, hEmove, hEunch⟩ := hEpack
    obtain ⟨byU, hU, hUidx, hUusr, hUmove, hUunch⟩ := hUpack
    refine ⟨{ applyUserPatch user pu with updated_at := now },
      { users := dictSet s.users uid
          { applyUserPatch user pu with updated_at := now }
        user_by_email := byE
        user_by_username := byU
        next_id := s.next_id },
      ?_, fun hc => absurd hset (by rw [hc]; simp), fun _ => rfl,
      dictGet_set_self _ _ _,
      fun oid hoid => dictGet_set_ne _ _ _ _ hoid, rfl,
      hEmove, hEunch, hUmove, hUunch, ?_⟩
    · rw [hstep]
      exact update_user_apply_eval s uid user pu now byE byU hset hE hU
    · exact (storeWF_iff _).mpr
        ⟨idsBounded_after_set _ hbound huidlt, hEidx, hEusr, hUidx, hUusr⟩

theorem dictGet_isSome_of_hasKey {K V : Type} [DecidableEq K]
    {d : List (K × V)} {k : K} (h : dictHasKey d k = true) :
    ∃ v, dictGet d k = some v := by
  induction d with
  | nil => simp [dictHasKey] at h
  | cons q d ih =>
    rw [dictHasKey_cons] at h
    by_cases hq : q.1 = k
    · exact ⟨q.2, by rw [dictGet_cons, if_pos hq]⟩
    · simp only [hq, decide_False, Bool.false_or] at h
      obtain ⟨v, hv⟩ := ih h
      exact ⟨v, by rw [dictGet_cons, if_neg hq]; exact hv⟩

/-- Both sides of the invariant survive deleting a user together with its
index entry. -/
theorem index_deleted_ok (acc : UserInDB → Option String)
    {users : List (Nat × UserInDB)} {idx : List (String × Nat)}
    {uid : Nat} {user : UserInDB} {olde : String}
    {du : List (Nat × UserInDB)} {de : List (String × Nat)}
    (hu : dictGet users uid = some user)
    (hidx : ∀ p ∈ idx, ∃ u2, dictGet users p.2 = some u2 ∧ acc u2 = some p.1)
    (husr : ∀ p ∈ users, ∃ e, acc p.2 = some e ∧ dictGet idx e = some p.1)
    (holde : acc user = some olde)
    (holdeIdx : dictGet idx olde = some uid)
    (hdelU : dictDel users uid = some du)
    (hdelE : dictDel idx olde = some de) :
    (∀ p ∈ de, ∃ u2, dictGet du p.2 = some u2 ∧ acc u2 = some p.1) ∧
    (∀ p ∈ du, ∃ e, acc p.2 = some e ∧ dictGet de e = some p.1) := by
  constructor
  · intro p hp
    obtain ⟨hmIdx, hpnolde⟩ := mem_of_mem_dictDel hdelE hp
    obtain ⟨u2, hu2, hu2acc⟩ := hidx p hmIdx
    have hp2 : p.2 ≠ uid := by
      intro hc
      rw [hc, hu] at hu2
      cases Option.some_inj.mp hu2
      rw [holde] at hu2acc
      exact hpnolde (Option.some_inj.mp hu2acc).symm
    exact ⟨u2, by rw [dictGet_dictDel_ne hdelU _ hp2]; exact hu2, hu2acc⟩
  · intro p hp
    obtain ⟨hm, hpne⟩ := mem_of_mem_dictDel hdelU hp
    obtain ⟨e, hacc2, hidx2⟩ := husr p hm
    have heolde : e ≠ olde := by
      intro hc
      rw [hc, holdeIdx] at hidx2
      exact hpne (Option.some_inj.mp hidx2).symm
    exact ⟨e, hacc2, by rw [dictGet_dictDel_ne hdelE _ heolde]; exact hidx2⟩

/-- Both sides of the invariant survive inserting a fresh user under a
fresh key. -/
theorem index_inserted_ok (acc : UserInDB → Option String)
    {users : List (Nat × UserInDB)} {idx : List (String × Nat)}
    {next : Nat} {u : UserInDB} {key : String}
    (hfresh : ∀ p ∈ users, p.1 < next)
    (hidx : ∀ p ∈ idx, ∃ u2, dictGet users p.2 = some u2 ∧ acc u2 = some p.1)
    (husr : ∀ p ∈ users, ∃ e, acc p.2 = some e ∧ dictGet idx e = some p.1)
    (hnew : dictHasKey idx key = false)
    (hacc : acc u = some key) :
    (∀ p ∈ dictSet idx key next, ∃ u2,
       dictGet (dictSet users next u) p.2 = some u2 ∧ acc u2 = some p.1) ∧
    (∀ p ∈ dictSet users next u, ∃ e,
       acc p.2 = some e ∧ dictGet (dictSet idx key next) e = some p.1) := by
  constructor
  · intro p hp
    rcases mem_dictSet hp with rfl | ⟨hm, hpne⟩
    · exact ⟨u, by rw [dictGet_set_self], hacc⟩
    · obtain ⟨u2, hu2, hu2acc⟩ := hidx p hm
      have hp2 : p.2 ≠ next := by
        intro hc
        have := hfresh _ (dictGet_eq_some_mem hu2)
        omega
      exact ⟨u2, by rw [dictGet_set_ne _ _ _ _ hp2]; exact hu2, hu2acc⟩
  · intro p hp
    rcases mem_dictSet hp with rfl | ⟨hm, hpne⟩
    · exact ⟨key, hacc, by rw [dictGet_set_self]⟩
    · obtain ⟨e, hacc2, hidx2⟩ := husr p hm
      have hekey : e ≠ key := by
        intro hc
        rw [hc, dictGet_eq_none_of_hasKey_eq_false hnew] at hidx2
        cases hidx2
      exact ⟨e, hacc2, by rw [dictGet_set_ne _ _ _ _ hekey]; exact hidx2⟩

/-- `delete_user`: not-found does nothing; on a hit, from a consistent
store it removes the user from the primary store and from both indexes,
returning `True`, and preserves the invariant. -/
theorem delete_user_props (s : UserStore) (uid : Nat)
    (hwf : storeWF s = true) :
    storeWF (delete_user s uid).2 = true ∧
    (dictGet s.users uid = none → delete_user s uid = (.ok false, s)) ∧
    (∀ u, dictGet s.users uid = some u →
      (delete_user s uid).1 = .ok true ∧
      dictGet (delete_user s uid).2.users uid = none ∧
      (∀ e, u.email = some e →
        dictGet (delete_user s uid).2.user_by_email e = none) ∧
      (∀ un, u.username = some un →
        dictGet (delete_user s uid).2.user_by_username un = none)) := by
  cases hu : dictGet s.users uid with
  | none =>
    have heval : delete_user s uid = (.ok false, s) := by
      unfold delete_user
      rw [hu]
    refine ⟨by rw [heval]; exact hwf, fun _ => heval, ?_⟩
    intro u hc
    simp [hu] at hc
  | some user =>
    obtain ⟨hbound, hidxE, husrE, hidxU, husrU⟩ := (storeWF_iff s).mp hwf
    have hmem : (uid, user) ∈ s.users := dictGet_eq_some_mem hu
    obtain ⟨olde, holde, holdeIdx⟩ := husrE (uid, user) hmem
    obtain ⟨oldu, holdu, holduIdx⟩ := husrU (uid, user) hmem
    have holde' : user.email = some olde := holde
    have holdeIdx' : dictGet s.user_by_email olde = some uid := holdeIdx
    have holdu' : user.username = some oldu := holdu
    have holduIdx' : dictGet s.user_by_username oldu = some uid := holduIdx
    have hdelU := dictDel_isSome_of_hasKey (dictHasKey_of_get_eq_some hu)
    have hdelE := dictDel_isSome_of_hasKey
      (dictHasKey_of_get_eq_some holdeIdx')
    have hdelN := dictDel_isSome_of_hasKey
      (dictHasKey_of_get_eq_some holduIdx')
    have heval : delete_user s uid =
        (.ok true,
         { users := s.users.filter (fun p => !decide (p.1 = uid))
           user_by_email :=
             s.user_by_email.filter (fun p => !decide (p.1 = olde))
           user_by_username :=
             s.user_by_username.filter (fun p => !decide (p.1 = oldu))
           next_id := s.next_id }) := by
      unfold delete_user
      rw [hu]
      dsimp only
      rw [hdelU]
      dsimp only
      rw [holde']
      dsimp only
      rw [hdelE]
      dsimp only
      rw [holdu']
      dsimp only
      rw [hdelN]
    obtain ⟨hEde, hEdu⟩ := index_deleted_ok (fun u => u.email)
      hu hidxE husrE holde' holdeIdx' hdelU hdelE
    obtain ⟨hUde, hUdu⟩ := index_deleted_ok (fun u => u.username)
      hu hidxU husrU holdu' holduIdx' hdelU hdelN
    refine ⟨?_, ?_, ?_⟩
    · rw [heval]
      refine (storeWF_iff _).mpr ⟨?_, hEde, hEdu, hUde, hUdu⟩
      intro p hp
      exact hbound p (mem_of_mem_dictDel hdelU hp).1
    · intro hc
      simp [hu] at hc
    · intro u hu2
      cases Option.some_inj.mp hu2
      rw [heval]
      refine ⟨rfl, dictGet_dictDel_self hdelU, ?_, ?_⟩
      · intro e he
        rw [holde'] at he
        cases Option.some_inj.mp he
        exact dictGet_dictDel_self hdelE
      · intro un hn
        rw [holdu'] at hn
        cases Option.some_inj.mp hn
        exact dictGet_dictDel_self hdelN

/-- `create_user` preserves the store invariant. -/
theorem create_user_preserves_wf (s : UserStore) (uc : UserCreate)
    (now : Nat) (hwf : storeWF s = true) :
    storeWF (create_user s uc now).2 = true := by
  by_cases h1 : dictHasKey s.user_by_email uc.email = true
  · have : (create_user s uc now).2 = s := by simp [create_user, h1]
    rw [this]
    exact hwf
  · by_cases h2 : dictHasKey s.user_by_username uc.username = true
    · have : (create_user s uc now).2 = s := by
        simp only [Bool.not_eq_true] at h1
        simp [create_user, h1, h2]
      rw [this]
      exact hwf
    · simp only [Bool.not_eq_true] at h1 h2
      obtain ⟨hbound, hidxE, husrE, hidxU, husrU⟩ := (storeWF_iff s).mp hwf
      have heval : (create_user s uc now).2 =
          { users := dictSet s.users s.next_id
              { id := s.next_id, email := some uc.email,
                username := some uc.username, full_name := uc.full_name,
                hashed_password := get_password_hash uc.password,
                is_active := some uc.is_active,
                is_superuser := some uc.is_superuser,
                created_at := now, updated_at := now }
            user_by_email := dictSet s.user_by_email uc.email s.next_id
            user_by_username :=
              dictSet s.user_by_username uc.username s.next_id
            next_id := s.next_id + 1 } := by
        simp [create_user, h1, h2]
      set nu : UserInDB :=
        { id := s.next_id, email := some uc.email,
          username := some uc.username, full_name := uc.full_name,
          hashed_password := get_password_hash uc.password,
          is_active := some uc.is_active,
          is_superuser := some uc.is_superuser,
          created_at := now, updated_at := now } with hnu
      obtain ⟨hEidx, hEusr⟩ := index_inserted_ok (fun u => u.email)
        hbound hidxE husrE h1 (show nu.email = some uc.email by rw [hnu])
      obtain ⟨hUidx, hUusr⟩ := index_inserted_ok (fun u => u.username)
        hbound hidxU husrU h2 (show nu.username = some uc.username by rw [hnu])
      rw [heval]
      refine (storeWF_iff _).mpr ⟨?_, hEidx, hEusr, hUidx, hUusr⟩
      intro p hp
      rcases mem_dictSet hp with rfl | ⟨hm, _⟩
      · exact Nat.lt_succ_self _
      · exact Nat.lt_succ_of_lt (hbound p hm)

theorem isSome_false_eq_none {α : Type} {o : Option α}
    (h : o.isSome = false) : o = none := by
  cases o
  · rfl
  · simp at h

theorem anySet_false_fields {pu : UserUpdate} (h : pu.anySet = false) :
    pu.email = none ∧ pu.username = none ∧ pu.full_name = none ∧
    pu.is_active = none ∧ pu.is_superuser = none := by
  unfold UserUpdate.anySet at h
  simp only [Bool.or_eq_false_iff] at h
  obtain ⟨⟨⟨⟨h1, h2⟩, h3⟩, h4⟩, h5⟩ := h
  exact ⟨isSome_false_eq_none h1, isSome_false_eq_none h2,
    isSome_false_eq_none h3, isSome_false_eq_none h4,
    isSome_false_eq_none h5⟩

/-- C4 counterexample: from a consistent one-user store, an update whose
patch explicitly sets email to JSON null succeeds, stores `None` as the
user's email, and leaves the stale email-index entry behind — the index
invariant does not survive this update. -/
theorem update_null_email_breaks_index_invariant :
    storeWF aliceStore = true ∧
    (update_user aliceStore 1 { email := some none } 5).1
      = .ok (some { aliceUser with email := none, updated_at := 5 }) ∧
    storeWF (update_user aliceStore 1 { email := some none } 5).2 = false := by
  decide

/-- C4 amended: `create_user` and `delete_user` preserve the index
invariant from any consistent store, and so does `update_user` provided
every email or username field present in the patch carries an actual
(nonempty) value rather than JSON null; `delete_user` reports not-found
without modifying anything when the id is absent, and otherwise removes
the user from the primary store and from both secondary indexes. -/
theorem user_store_ops_preserve_index_invariant (s : UserStore)
    (uc : UserCreate) (pu : UserUpdate) (uid now : Nat)
    (hwf : storeWF s = true)
    (hpe : patchFieldProper pu.email = true)
    (hpn : patchFieldProper pu.username = true) :
    storeWF (create_user s uc now).2 = true ∧
    storeWF (update_user s uid pu now).2 = true ∧
    storeWF (delete_user s uid).2 = true ∧
    (dictGet s.users uid = none → delete_user s uid = (.ok false, s)) ∧
    (∀ u, dictGet s.users uid = some u →
      (delete_user s uid).1 = .ok true ∧
      dictGet (delete_user s uid).2.users uid = none ∧
      (∀ e, u.email = some e →
        dictGet (delete_user s uid).2.user_by_email e = none) ∧
      (∀ un, u.username = some un →
        dictGet (delete_user s uid).2.user_by_username un = none)) := by
  obtain ⟨hdwf, hdnone, hdsome⟩ := delete_user_props s uid hwf
  refine ⟨create_user_preserves_wf s uc now hwf, ?_, hdwf, hdnone, hdsome⟩
  cases hu : dictGet s.users uid with
  | none =>
    rw [update_user_notFound s uid pu now hu]
    exact hwf
  | some user =>
    by_cases hech : (strOptTruthy pu.emailVal = true ∧
        pu.emailVal ≠ user.email)
        ∧ dictHasKey s.user_by_email (pu.emailVal.getD "") = true
    · rw [update_user_email_conflict s uid pu now user hu hech.1 hech.2]
      exact hwf
    · have hce : strOptTruthy pu.emailVal = true →
          pu.emailVal ≠ user.email →
          dictHasKey s.user_by_email (pu.emailVal.getD "") = false := by
        intro h1 h2
        cases hx : dictHasKey s.user_by_email (pu.emailVal.getD "")
        · rfl
        · exact absurd ⟨⟨h1, h2⟩, hx⟩ hech
      by_cases huch : (strOptTruthy pu.usernameVal = true ∧
          pu.usernameVal ≠ user.username)
          ∧ dictHasKey s.user_by_username (pu.usernameVal.getD "") = true
      · rw [update_user_to_check s uid pu now user hu
            (fun hc => hce hc.1 hc.2),
          check_username_conflict s uid user pu now huch.1 huch.2]
        exact hwf
      · have hcn : strOptTruthy pu.usernameVal = true →
            pu.usernameVal ≠ user.username →
            dictHasKey s.user_by_username (pu.usernameVal.getD "")
              = false := by
          intro h1 h2
          cases hx : dictHasKey s.user_by_username (pu.usernameVal.getD "")
          · rfl
          · exact absurd ⟨⟨h1, h2⟩, hx⟩ huch
        obtain ⟨u', s', heval, _, _, _, _, _, _, _, _, _, hwf'⟩ :=
          update_user_success s uid pu now user hu hwf hpe hpn hce hcn
        rw [heval]
        exact hwf'

/-- C4 witness: the amended theorem at the concrete one-user store with a
fresh registration, a proper email change, and a deletion. -/
theorem user_store_ops_preserve_index_invariant_witness :
    storeWF (create_user aliceStore
      { email := "b@example.com", username := "bob", full_name := none,
        password := "Passw0rd1", is_active := true, is_superuser := false }
      7).2 = true ∧
    storeWF (update_user aliceStore 1
      { email := some (some "new@example.com") } 7).2 = true ∧
    storeWF (delete_user aliceStore 1).2 = true := by
  have h := user_store_ops_preserve_index_invariant aliceStore
    { email := "b@example.com", username := "bob", full_name := none,
      password := "Passw0rd1", is_active := true, is_superuser := false }
    { email := some (some "new@example.com") } 1 7
    (by decide) (by decide) (by decide)
  exact ⟨h.1, h.2.1, h.2.2.1⟩

/-- C5 counterexample: the patch that explicitly sets email to JSON null
is applied to the record (the stored email becomes `None`) and the update
succeeds, but the secondary index entry for the old email is not moved or
removed — it still resolves to the user. -/
theorem update_null_email_skips_index_move :
    (update_user aliceStore 1 { email := some none } 5).1
      = .ok (some { aliceUser with email := none, updated_at := 5 }) ∧
    dictGet (update_user aliceStore 1
      { email := some none } 5).2.user_by_email "a@example.com"
      = some 1 := by
  decide

/-- C5 amended: for an existing user and a patch whose set email/username
fields carry actual values, `update_user` raises the same Conflict errors
as `create_user` exactly when the new email (username) belongs to a user
other than the one being updated, leaving the store unchanged; on success
it applies exactly the fields present in the patch, leaves the absent
fields and the identity fields untouched, refreshes `updated_at` when the
patch is nonempty, and moves the secondary index entries of a changed
email or username. -/
theorem update_user_partial_update_spec (s : UserStore) (uid : Nat)
    (pu : UserUpdate) (now : Nat)
    (hwf : storeWF s = true)
    (hpe : patchFieldProper pu.email = true)
    (hpn : patchFieldProper pu.username = true) :
    ∀ user, dictGet s.users uid = some user →
      (∀ e, pu.email = some (some e) → some e ≠ user.email →
        dictHasKey s.user_by_email e = true →
        update_user s uid pu now
          = (.httpError 400 "Email already registered", s) ∧
        ∃ oid u2, oid ≠ uid ∧ dictGet s.users oid = some u2 ∧
          u2.email = some e) ∧
      (∀ un, pu.username = some (some un) → some un ≠ user.username →
        (strOptTruthy pu.emailVal = true → pu.emailVal ≠ user.email →
          dictHasKey s.user_by_email (pu.emailVal.getD "") = false) →
        dictHasKey s.user_by_username un = true →
        update_user s uid pu now
          = (.httpError 400 "Username already taken", s) ∧
        ∃ oid u2, oid ≠ uid ∧ dictGet s.users oid = some u2 ∧
          u2.username = some un) ∧
      ((strOptTruthy pu.emailVal = true → pu.emailVal ≠ user.email →
          dictHasKey s.user_by_email (pu.emailVal.getD "") = false) →
       (strOptTruthy pu.usernameVal = true → pu.usernameVal ≠ user.username →
          dictHasKey s.user_by_username (pu.usernameVal.getD "") = false) →
       ∃ u' s', update_user s uid pu now = (.ok (some u'), s') ∧
         u'.email = pu.email.getD user.email ∧
         u'.username = pu.username.getD user.username ∧
         u'.full_name = pu.full_name.getD user.full_name ∧
         u'.is_active = pu.is_active.getD user.is_active ∧
         u'.is_superuser = pu.is_superuser.getD user.is_superuser ∧
         u'.id = user.id ∧
         u'.hashed_password = user.hashed_password ∧
         u'.created_at = user.created_at ∧
         (pu.anySet = true → u'.updated_at = now) ∧
         (pu.anySet = false → u' = user ∧ s' = s) ∧
         dictGet s'.users uid = some u' ∧
         (∀ oid, oid ≠ uid → dictGet s'.users oid = dictGet s.users oid) ∧
         (∀ e, pu.email = some (some e) → some e ≠ user.email →
           dictGet s'.user_by_email e = some uid ∧
           ∀ olde, user.email = some olde →
             dictGet s'.user_by_email olde = none) ∧
         (∀ un, pu.username = some (some un) → some un ≠ user.username →
           dictGet s'.user_by_username un = some uid ∧
           ∀ oldu, user.username = some oldu →
             dictGet s'.user_by_username oldu = none)) := by
  intro user hu
  obtain ⟨hbound, hidxE, husrE, hidxU, husrU⟩ := (storeWF_iff s).mp hwf
  refine ⟨?_, ?_, ?_⟩
  · intro e he hne hk
    have hval : pu.emailVal = some e := emailVal_some.mpr he
    have hproper : e ≠ "" := by
      rw [he] at hpe
      simpa [patchFieldProper] using hpe
    have htruthy : strOptTruthy pu.emailVal = true := by
      rw [hval]
      simpa [strOptTruthy] using hproper
    have hvalne : pu.emailVal ≠ user.email := by
      rw [hval]
      exact hne
    have hgd : pu.emailVal.getD "" = e := by rw [hval]; rfl
    constructor
    · exact update_user_email_conflict s uid pu now user hu
        ⟨htruthy, hvalne⟩ (by rwa [hgd])
    · obtain ⟨oid, hoid⟩ := dictGet_isSome_of_hasKey hk
      obtain ⟨u2, hu2, hu2e⟩ := hidxE (e, oid) (dictGet_eq_some_mem hoid)
      have hu2' : dictGet s.users oid = some u2 := hu2
      have hu2e' : u2.email = some e := hu2e
      refine ⟨oid, u2, ?_, hu2', hu2e'⟩
      intro hc
      rw [hc, hu] at hu2'
      cases Option.some_inj.mp hu2'
      exact hne hu2e'.symm
  · intro un hn hne hceH hk
    have hval : pu.usernameVal = some un := usernameVal_some.mpr hn
    have hproper : un ≠ "" := by
      rw [hn] at hpn
      simpa [patchFieldProper] using hpn
    have htruthy : strOptTruthy pu.usernameVal = true := by
      rw [hval]
      simpa [strOptTruthy] using hproper
    have hvalne : pu.usernameVal ≠ user.username := by
      rw [hval]
      exact hne
    have hgd : pu.usernameVal.getD "" = un := by rw [hval]; rfl
    constructor
    · rw [update_user_to_check s uid pu now user hu
        (fun hc => hceH hc.1 hc.2)]
      exact check_username_conflict s uid user pu now
        ⟨htruthy, hvalne⟩ (by rwa [hgd])
    · obtain ⟨oid, hoid⟩ := dictGet_isSome_of_hasKey hk
      obtain ⟨u2, hu2, hu2n⟩ := hidxU (un, oid) (dictGet_eq_some_mem hoid)
      have hu2' : dictGet s.users oid = some u2 := hu2
      have hu2n' : u2.username = some un := hu2n
      refine ⟨oid, u2, ?_, hu2', hu2n'⟩
      intro hc
      rw [hc, hu] at hu2'
      cases Option.some_inj.mp hu2'
      exact hne hu2n'.symm
  · intro hceH hcnH
    obtain ⟨u', s', heval, hnoop, hset, hget, hframe, hnext, hemove, heunch,
        humove, huunch, hwf'⟩ :=
      update_user_success s uid pu now user hu hwf hpe hpn hceH hcnH
    have hfields : u'.email = pu.email.getD user.email ∧
        u'.username = pu.username.getD user.username ∧
        u'.full_name = pu.full_name.getD user.full_name ∧
        u'.is_active = pu.is_active.getD user.is_active ∧
        u'.is_superuser = pu.is_superuser.getD user.is_superuser ∧
        u'.id = user.id ∧
        u'.hashed_password = user.hashed_password ∧
        u'.created_at = user.created_at := by
      by_cases hany : pu.anySet = true
      · rw [hset hany]
        simp [applyUserPatch]
      · have hany' : pu.anySet = false := by
          cases hx : pu.anySet
          · rfl
          · exact absurd hx hany
        obtain ⟨hne, hnu, hnf, hna, hns⟩ := anySet_false_fields hany'
        obtain ⟨hu'u, _⟩ := hnoop hany'
        rw [hu'u, hne, hnu, hnf, hna, hns]
        simp
    obtain ⟨hf1, hf2, hf3, hf4, hf5, hf6, hf7, hf8⟩ := hfields
    refine ⟨u', s', heval, hf1, hf2, hf3, hf4, hf5, hf6, hf7, hf8, ?_,
      hnoop, hget, hframe, hemove, humove⟩
    intro hany
    rw [hset hany]

/-- C5 witness: a proper email change on the concrete store succeeds,
stores the new email, adds the new index entry and drops the old one. -/
theorem update_user_partial_update_spec_witness :
    ∃ u' s', update_user aliceStore 1
        { email := some (some "new@example.com") } 5 = (.ok (some u'), s') ∧
      u'.email = some "new@example.com" ∧
      dictGet s'.user_by_email "new@example.com" = some 1 ∧
      dictGet s'.user_by_email "a@example.com" = none := by
  have h := (update_user_partial_update_spec aliceStore 1
      { email := some (some "new@example.com") } 5 (by decide) (by decide)
      (by decide)) aliceUser (by decide)
  obtain ⟨u', s', heval, hf1, _, _, _, _, _, _, _, _, _, _, _, hemove, _⟩ :=
    h.2.2 (fun _ _ => by decide) (fun _ _ => by decide)
  obtain ⟨hm1, hm2⟩ := hemove "new@example.com" rfl (by decide)
  exact ⟨u', s', heval, by simpa using hf1, hm1,
    hm2 "a@example.com" (by decide)⟩

end FastapiDemo
